import Mathlib

/-!
# Verification of the Yelp flavor-dataset aggregation pipeline

Shallow embedding of `src/yelp-dataset/generate_data.py` (the aggregation
pipeline of the black-sesame-project repository) and proofs of the spec's
claims about it.

Modelling conventions:
* A CSV row (as produced by `csv.DictReader`) is an association list from
  column name to raw string value.  `r[k]` (which can raise `KeyError`) is
  modelled by an `Option`-valued lookup; a whole processing function that can
  raise is `Except Unit`-valued, `Except.error ()` standing for an uncaught
  exception.
* Python `float` values are modelled as exact rationals (`Rat`); binary
  floating-point rounding is abstracted away.  `float(s)` / `int(s)` are
  modelled by executable decimal parsers covering the ordinary numeric forms.
* `collections.Counter` built from a key sequence is modelled by an
  association list in key-first-occurrence order (Python dicts preserve
  insertion order).  `Counter.most_common(n)` and `sorted`/`list.sort` are
  stable sorts, modelled by `List.insertionSort` with a non-strict total
  preorder (any two stable sorts w.r.t. the same preorder agree).
-/

/-- A CSV row: a finite map from column name to raw string value,
represented as an association list (first binding wins). -/
abbrev Row := List (String × String)

/-- Python `r[k]`: `some v` when the column is present; `none` models a
`KeyError`. -/
def getKey (r : Row) (k : String) : Option String :=
  (r.find? (fun p => p.1 == k)).map (fun p => p.2)

/-- Python `r.get(k, d)`. -/
def getKeyD (r : Row) (k d : String) : String :=
  (getKey r k).getD d

/-- Turn an optional value into an `Except`, `none` becoming an uncaught
exception (`KeyError` / `ValueError`). -/
def req {α : Type} (o : Option α) : Except Unit α :=
  match o with
  | some v => Except.ok v
  | none => Except.error ()

/-! ## Numeric field coercion (Python `int(s)` and `float(s)`) -/

/-- Value of a digit string, most significant first. -/
def digitsVal (cs : List Char) : Nat :=
  cs.foldl (fun n c => n * 10 + (c.toNat - 48)) 0

/-- A nonempty string of ASCII digits. -/
def allDigits (cs : List Char) : Bool :=
  !cs.isEmpty && cs.all (fun c => c.isDigit)

/-- Optional leading sign: returns (isNegative, rest). -/
def parseSign (cs : List Char) : Bool × List Char :=
  match cs with
  | '+' :: rest => (false, rest)
  | '-' :: rest => (true, rest)
  | rest => (false, rest)

/-- Python `str.strip()` on a character list: drop whitespace from both ends
(structural recursion, unlike `String.trim`, so that concrete runs reduce). -/
def stripChars (cs : List Char) : List Char :=
  ((cs.dropWhile Char.isWhitespace).reverse.dropWhile Char.isWhitespace).reverse

/-- Python `str.strip()`. -/
def pyStrip (s : String) : String :=
  ⟨stripChars s.toList⟩

/-- Python `s.split(",")`: split at every comma; the empty string yields
`[""]`. -/
def splitOnComma : List Char → List (List Char)
  | [] => [[]]
  | c :: rest =>
    match splitOnComma rest with
    | r :: rs => if c = ',' then [] :: r :: rs else (c :: r) :: rs
    | [] => [[c]]

/-- Lexicographic (code-point) order on character lists: the order Python's
`sorted` uses on strings. -/
def lexLe : List Char → List Char → Bool
  | [], _ => true
  | _ :: _, [] => false
  | a :: as, b :: bs => if a < b then true else if b < a then false else lexLe as bs

/-- Python string `<=` (used by `sorted` on year keys). -/
def strLe (a b : String) : Prop := lexLe a.toList b.toList = true

instance : DecidableRel strLe :=
  fun a b => inferInstanceAs (Decidable (lexLe a.toList b.toList = true))

/-- Model of Python `int(s)`: surrounding whitespace, an optional sign and a
nonempty digit string.  (Digit-group underscores are not modelled.) -/
def parseInt? (s : String) : Option Int :=
  let (neg, body) := parseSign (stripChars s.toList)
  if allDigits body then
    some (if neg then -(digitsVal body : Int) else (digitsVal body : Int))
  else none

/-- Mantissa of a float literal: digits with at most one point, at least one
digit overall.  Returns the digit value with the count of fractional digits. -/
def parseMantissa? (cs : List Char) : Option (Nat × Nat) :=
  let (ip, rest) := cs.span (fun c => c != '.')
  match rest with
  | [] =>
    if allDigits ip then some (digitsVal ip, 0) else none
  | _ :: fp =>
    if ip.all (fun c => c.isDigit) && fp.all (fun c => c.isDigit)
        && !(ip.isEmpty && fp.isEmpty) then
      some (digitsVal (ip ++ fp), fp.length)
    else none

/-- Model of a successful, finite Python `float(s)`: surrounding whitespace,
optional sign, decimal mantissa with optional fraction, optional decimal
exponent.  The value is the exact rational denoted by the literal (binary
floating-point rounding of finite values is abstracted away; digit-group
underscores are not modelled).  `float(s)` calls that return an infinity —
an `inf` literal or a decimal beyond the IEEE double range — are modelled
separately by `floatIsInfinite` below, since `int()` of such a value raises
an uncaught OverflowError in the star loop. -/
def parseFloat? (s : String) : Option Rat :=
  let (neg, body) := parseSign (stripChars s.toList)
  let (mant, expPart) := body.span (fun c => c != 'e' && c != 'E')
  let expVal : Option Int :=
    match expPart with
    | [] => some 0
    | _ :: ecs =>
      let (eneg, ebody) := parseSign ecs
      if allDigits ebody then
        some (if eneg then -(digitsVal ebody : Int) else (digitsVal ebody : Int))
      else none
  match parseMantissa? mant, expVal with
  | some (m, f), some e =>
    let base : Rat := (m : Rat) / (10 : Rat) ^ f
    let scaled : Rat :=
      if 0 ≤ e then base * (10 : Rat) ^ e.toNat else base / (10 : Rat) ^ (-e).toNat
    some (if neg then -scaled else scaled)
  | _, _ => none

/-- Case-insensitive Python float infinity literal: `inf` or `infinity`. -/
def isInfLiteral (cs : List Char) : Bool :=
  let l := cs.map Char.toLower
  l == ['i', 'n', 'f'] || l == ['i', 'n', 'f', 'i', 'n', 'i', 't', 'y']

/-- The overflow threshold of IEEE-754 double round-to-nearest-even, written
as a literal so that concrete runs evaluate cheaply: `floatOverflowBound_eq`
below checks it equals `2^1024 - 2^970`, the midpoint between the largest
finite double `(2^53 - 1) * 2^971` and `2^1024` (the tie rounds to the even
mantissa, i.e. to infinity). -/
def floatOverflowBound : Rat :=
  179769313486231580793728971405303415079934132710037826936173778980444968292764750946649017977587207096330286416692887910946555547851940402630657488671505820681908902000708383676273854845817711531764475730270069855571366959622842914819860834936475292719074168444365510704342711559699508093042880177904174497792

theorem floatOverflowBound_eq : floatOverflowBound = 2 ^ 1024 - 2 ^ 970 := by
  norm_num [floatOverflowBound]

/-- IEEE-754 double conversion overflows to infinity exactly when the
magnitude of the exact value reaches the threshold. -/
def floatOverflows (q : Rat) : Bool :=
  decide (floatOverflowBound ≤ |q|)

/-- Python `float(s)` returns `+inf` or `-inf` (rather than a finite value or
a ValueError): an explicit infinity literal, or a finite decimal literal whose
exact value overflows the double range (e.g. `"1e400"`). -/
def floatIsInfinite (s : String) : Bool :=
  match parseFloat? s with
  | some q => floatOverflows q
  | none =>
    let (_, body) := parseSign (stripChars s.toList)
    isInfLiteral body

/-- Python `int(·)` applied to a float: truncation toward zero. -/
def truncToInt (q : Rat) : Int :=
  if 0 ≤ q then ⌊q⌋ else ⌈q⌉

/-- Python `round(·, 2)` on an exact rational: round to the nearest hundredth
(the tie-breaking rule is immaterial to every claim proved below). -/
def round2 (q : Rat) : Rat :=
  ((round (q * 100) : Int) : Rat) / 100

/-! ## The `collections.Counter` model -/

/-- Add one occurrence of `k` to a counter kept as an association list in
key-insertion order (Python dicts preserve insertion order): bump the existing
entry, or append a fresh `(k, 1)` entry at the end. -/
def bump {α : Type} [BEq α] : List (α × Nat) → α → List (α × Nat)
  | [], k => [(k, 1)]
  | p :: ps, k =>
    if p.1 == k then (p.1, p.2 + 1) :: ps else p :: bump ps k

/-- `collections.Counter(ks)`: frequency of every key, keys listed in
first-occurrence order. -/
def countKeys {α : Type} [BEq α] (ks : List α) : List (α × Nat) :=
  ks.foldl bump []

/-- `counter.get(k, 0)` / `counter[k]` lookup. -/
def countGet {α : Type} [BEq α] : List (α × Nat) → α → Nat
  | [], _ => 0
  | p :: ps, k => if p.1 == k then p.2 else countGet ps k

/-- Sort-descending-by-count preorder used by `Counter.most_common`. -/
def countGe {α : Type} (a b : α × Nat) : Prop := b.2 ≤ a.2

instance {α : Type} : DecidableRel (@countGe α) :=
  fun a b => inferInstanceAs (Decidable (b.2 ≤ a.2))

instance {α : Type} : IsTotal (α × Nat) countGe :=
  ⟨fun a b => (le_total b.2 a.2).imp id id⟩

instance {α : Type} : IsTrans (α × Nat) countGe :=
  ⟨fun _ _ _ h h' => le_trans h' h⟩

/-- `Counter.most_common n`: entries stably sorted by count descending
(ties keep insertion order), truncated to the first `n`. -/
def mostCommon {α : Type} (n : Nat) (c : List (α × Nat)) : List (α × Nat) :=
  (c.insertionSort countGe).take n

/-! ## `process_flavor` (lines 14-80 of generate_data.py) -/

/-- One key for the year Counter: `r["year"]` (KeyError when absent);
the Counter keeps only truthy (nonempty) values. -/
def yearKey (r : Row) : Except Unit String :=
  req (getKey r "year")

def yearKeys (rows : List Row) : Except Unit (List String) := do
  let ks ← rows.mapM yearKey
  Except.ok (ks.filter (fun v => v != ""))

/-- `Counter(r["year"] for r in rows if r["year"])`. -/
def year_counts (rows : List Row) : Except Unit (List (String × Nat)) := do
  let ks ← yearKeys rows
  Except.ok (countKeys ks)

/-- One key for the city Counter: the generator condition is
`r["city"] and r["state"]` (short-circuit: `r["state"]` is only read when
`r["city"]` is truthy), the key the f-string `f"{r['city']}, {r['state']}"`. -/
def cityKey (r : Row) : Except Unit (Option String) :=
  match getKey r "city" with
  | none => Except.error ()
  | some c =>
    if c = "" then Except.ok none
    else
      match getKey r "state" with
      | none => Except.error ()
      | some s =>
        if s = "" then Except.ok none else Except.ok (some (c ++ ", " ++ s))

def cityKeys (rows : List Row) : Except Unit (List String) := do
  let ks ← rows.mapM cityKey
  Except.ok ks.reduceOption

/-- One key for the state Counter: `r["state"]`, kept when truthy. -/
def stateKey (r : Row) : Except Unit String :=
  req (getKey r "state")

def stateKeys (rows : List Row) : Except Unit (List String) := do
  let ks ← rows.mapM stateKey
  Except.ok (ks.filter (fun v => v != ""))

/-- `int(float(r["stars_x"]))` when the coercion succeeds finitely:
`ValueError` (unparsable text, or `int(nan)`) and `KeyError` give `none` and
the row is skipped by the star-distribution loop. -/
def starOfRow (r : Row) : Option Int :=
  ((getKey r "stars_x").bind parseFloat?).map truncToInt

/-- One iteration of the star-distribution loop.  The `try` catches only
`(ValueError, KeyError)`: a missing `stars_x` or an unparsable/NaN value is
caught and the row skipped, but when `float(r["stars_x"])` returns an
infinity, `int(·)` raises an OverflowError that the handler does not catch and
the whole Dataset Processor dies. -/
def starObs (r : Row) : Except Unit (Option Int) :=
  match getKey r "stars_x" with
  | none => Except.ok none
  | some v =>
    if floatIsInfinite v then Except.error ()
    else Except.ok ((parseFloat? v).map truncToInt)

/-- The sequence of truncated ratings the star loop observes (rows folded in
order; the first infinite rating aborts processing). -/
def starsOf (rows : List Row) : Except Unit (List Int) := do
  let os ← rows.mapM starObs
  Except.ok os.reduceOption

/-- The star Counter over the observed truncated ratings, including
out-of-range ones. -/
def star_counts (obs : List Int) : List (Int × Nat) :=
  countKeys obs

/-- `[{"stars": s, "count": star_counts.get(s, 0)} for s in range(1, 6)]`. -/
def star_dist (obs : List Int) : List (Int × Nat) :=
  (List.range' 1 5).map (fun s => ((s : Int), countGet (star_counts obs) (s : Int)))

/-- Keys fed to the category Counter: for each row whose `categories` field is
present and truthy, the comma-split, whitespace-stripped, nonempty sub-values
(a single row can contribute several keys). -/
def catKeys (rows : List Row) : List String :=
  rows.flatMap (fun r =>
    let c := getKeyD r "categories" ""
    if c = "" then []
    else (((splitOnComma c.toList).map (fun cs => pyStrip (String.mk cs))).filter
      (fun v => v != "")))

/-- The per-business accumulator of the top-businesses reducer: review count,
running star total, last-seen location. -/
structure BizAcc where
  name : String
  reviews : Nat
  total_stars : Rat
  location : String
deriving DecidableEq

/-- `r.get("name", "").strip()`. -/
def rowName (r : Row) : String :=
  pyStrip (getKeyD r "name" "")

/-- `f"{r['city']}, {r['state']}"` (KeyError when either column is absent). -/
def rowLoc (r : Row) : Except Unit String :=
  match getKey r "city", getKey r "state" with
  | some c, some s => Except.ok (c ++ ", " ++ s)
  | _, _ => Except.error ()

/-- Fold one named row into the accumulator map (an association list in
name-insertion order): bump the existing entry, or append a fresh one.  The
parsed rating (`none` on ValueError/KeyError) contributes `stars.getD 0` to the
star total; the location is overwritten unconditionally. -/
def updBiz (stars : Option Rat) (loc : String) (name : String) :
    List BizAcc → List BizAcc
  | [] => [{ name := name, reviews := 1, total_stars := stars.getD 0, location := loc }]
  | b :: bs =>
    if b.name == name then
      { b with reviews := b.reviews + 1,
               total_stars := b.total_stars + stars.getD 0,
               location := loc } :: bs
    else b :: updBiz stars loc name bs

/-- One iteration of the top-businesses loop: rows with an empty stripped name
are skipped entirely; for the rest the location f-string reads `r["city"]` and
`r["state"]` (KeyError when absent). -/
def bizStep (acc : List BizAcc) (r : Row) : Except Unit (List BizAcc) :=
  if rowName r = "" then Except.ok acc
  else do
    let loc ← rowLoc r
    Except.ok (updBiz ((getKey r "stars_x").bind parseFloat?) loc (rowName r) acc)

/-- The `biz_reviews` accumulator map after folding all rows. -/
def biz_reviews (rows : List Row) : Except Unit (List BizAcc) :=
  rows.foldlM bizStep []

/-- A finalized `{name, location, reviews, rating}` record. -/
structure TopBusiness where
  name : String
  location : String
  reviews : Nat
  rating : Rat
deriving DecidableEq

/-- Finalization: `rating = round(total_stars / reviews, 2) if reviews else 0`. -/
def finalizeBiz (b : BizAcc) : TopBusiness :=
  { name := b.name, location := b.location, reviews := b.reviews,
    rating := if b.reviews = 0 then 0 else round2 (b.total_stars / (b.reviews : Rat)) }

/-- Sort-descending-by-review-count preorder used on accumulators
(`sorted(..., key=lambda x: x[1]["reviews"], reverse=True)`, a stable sort). -/
def bizGe (a b : BizAcc) : Prop := b.reviews ≤ a.reviews

instance : DecidableRel bizGe :=
  fun a b => inferInstanceAs (Decidable (b.reviews ≤ a.reviews))

instance : IsTotal BizAcc bizGe :=
  ⟨fun a b => (le_total b.reviews a.reviews).imp id id⟩

instance : IsTrans BizAcc bizGe :=
  ⟨fun _ _ _ h h' => le_trans h' h⟩

/-- The finalized top-10 businesses by review count. -/
def top_businesses (rows : List Row) : Except Unit (List TopBusiness) := do
  let accs ← biz_reviews rows
  Except.ok (((accs.insertionSort bizGe).take 10).map finalizeBiz)

/-- One flavor's Dataset Summary (field names follow the emitted JSON). -/
structure FlavorSummary where
  totalReviews : Nat
  yearTrends : List (String × Nat)
  topCities : List (String × Nat)
  topStates : List (String × Nat)
  starDistribution : List (Int × Nat)
  topCategories : List (String × Nat)
  topBusinesses : List TopBusiness
deriving DecidableEq

/-- `process_flavor`: the whole Dataset Processor for one flavor CSV.
`years = sorted(year_counts.keys())` is an ascending lexicographic sort of the
(distinct) year keys; each is paired with its count. -/
def process_flavor (rows : List Row) : Except Unit FlavorSummary := do
  let yc ← year_counts rows
  let ck ← cityKeys rows
  let sobs ← starsOf rows
  let sk ← stateKeys rows
  let tb ← top_businesses rows
  Except.ok
    { totalReviews := rows.length
      yearTrends :=
        ((yc.map (fun p => p.1)).insertionSort strLe).map
          (fun y => (y, countGet yc y))
      topCities := mostCommon 10 (countKeys ck)
      topStates := mostCommon 10 (countKeys sk)
      starDistribution := star_dist sobs
      topCategories := mostCommon 10 (countKeys (catKeys rows))
      topBusinesses := tb }

/-! ## Comparison processors (lines 82-104) -/

/-- A row of the flavor comparison summary after renaming/coercion. -/
structure ComparisonRow where
  flavor : String
  totalMentions : Int
  uniqueBusinesses : Int
  cities : Int
  avgRating : Rat
deriving DecidableEq

/-- One row of `process_comparison_summary`: every lookup and numeric coercion
is unguarded, so a missing column or unparsable number raises. -/
def summaryRow (r : Row) : Except Unit ComparisonRow := do
  let fl ← req (getKey r "Flavor")
  let tm ← req ((getKey r "Total Mentions").bind parseInt?)
  let ub ← req ((getKey r "Unique Businesses").bind parseInt?)
  let ci ← req ((getKey r "Cities").bind parseInt?)
  let ar ← req ((getKey r "Avg Review Rating").bind parseFloat?)
  Except.ok
    { flavor := fl, totalMentions := tm, uniqueBusinesses := ub,
      cities := ci, avgRating := ar }

def process_comparison_summary (rows : List Row) : Except Unit (List ComparisonRow) :=
  rows.mapM summaryRow

/-- A row of the 2025 city comparison after renaming/coercion. -/
structure CityComparisonRow where
  flavor : String
  city : String
  businessCount : Int
deriving DecidableEq

/-- One row of `process_2025_comparison`: again unguarded lookups/coercions. -/
def comparisonRow2025 (r : Row) : Except Unit CityComparisonRow := do
  let fl ← req (getKey r "flavor")
  let ci ← req (getKey r "city")
  let bc ← req ((getKey r "business_count").bind parseInt?)
  Except.ok { flavor := fl, city := ci, businessCount := bc }

def process_2025_comparison (rows : List Row) : Except Unit (List CityComparisonRow) :=
  rows.mapM comparisonRow2025

/-! ## `process_2025_businesses` (lines 106-141) -/

/-- City key of the 2025 dataset: the generator condition checks only
`r["city"]`, but the f-string then reads `r["state"]` unconditionally (so an
empty state still yields a `"City, "` key, unlike `process_flavor`). -/
def cityKey2025 (r : Row) : Except Unit (Option String) :=
  match getKey r "city" with
  | none => Except.error ()
  | some c =>
    if c = "" then Except.ok none
    else
      match getKey r "state" with
      | none => Except.error ()
      | some s => Except.ok (some (c ++ ", " ++ s))

def cityKeys2025 (rows : List Row) : Except Unit (List String) := do
  let ks ← rows.mapM cityKey2025
  Except.ok ks.reduceOption

/-- A candidate of the top-rated list. -/
structure RatedBusiness where
  name : String
  city : String
  rating : Rat
  reviewCount : Int
  categories : String
deriving DecidableEq

/-- One iteration of the top-rated loop: the `try` wraps only the two numeric
coercions (failure → `continue`, i.e. `none`); the row is kept only when
`review_count >= 10`; the remaining lookups (`name`, `city`, `state`) are
unguarded. -/
def ratedOfRow (r : Row) : Except Unit (Option RatedBusiness) :=
  match (getKey r "rating").bind parseFloat?,
        (getKey r "review_count").bind parseInt? with
  | some rating, some rc =>
    if 10 ≤ rc then do
      let nm ← req (getKey r "name")
      let c ← req (getKey r "city")
      let s ← req (getKey r "state")
      Except.ok (some
        { name := nm, city := c ++ ", " ++ s, rating := rating,
          reviewCount := rc, categories := getKeyD r "categories" "" })
    else Except.ok none
  | _, _ => Except.ok none

/-- The sort preorder of `top_rated.sort(key=lambda x: (-rating, -reviewCount))`:
rating descending, review count descending as tie-break (stable). -/
def ratedGe (a b : RatedBusiness) : Prop :=
  b.rating < a.rating ∨ (a.rating = b.rating ∧ b.reviewCount ≤ a.reviewCount)

instance : DecidableRel ratedGe :=
  fun a b => inferInstanceAs
    (Decidable (b.rating < a.rating ∨ (a.rating = b.rating ∧ b.reviewCount ≤ a.reviewCount)))

instance : IsTotal RatedBusiness ratedGe := by
  constructor
  intro a b
  rcases lt_trichotomy a.rating b.rating with h | h | h
  · exact Or.inr (Or.inl h)
  · rcases le_total b.reviewCount a.reviewCount with h' | h'
    · exact Or.inl (Or.inr ⟨h, h'⟩)
    · exact Or.inr (Or.inr ⟨h.symm, h'⟩)
  · exact Or.inl (Or.inl h)

instance : IsTrans RatedBusiness ratedGe := by
  constructor
  intro a b c hab hbc
  rcases hab with h | ⟨he, hr⟩
  · rcases hbc with h' | ⟨he', _⟩
    · exact Or.inl (h'.trans h)
    · exact Or.inl (he' ▸ h)
  · rcases hbc with h' | ⟨he', hr'⟩
    · exact Or.inl (he ▸ h')
    · exact Or.inr ⟨he.trans he', hr'.trans hr⟩

/-- The summary of `black_sesame_businesses_2025.csv`. -/
structure Businesses2025 where
  total : Nat
  topCities : List (String × Nat)
  topStates : List (String × Nat)
  topRated : List RatedBusiness
deriving DecidableEq

def process_2025_businesses (rows : List Row) : Except Unit Businesses2025 := do
  let ck ← cityKeys2025 rows
  let sk ← stateKeys rows
  let rated ← rows.mapM ratedOfRow
  Except.ok
    { total := rows.length
      topCities := mostCommon 10 (countKeys ck)
      topStates := mostCommon 10 (countKeys sk)
      topRated := (rated.reduceOption.insertionSort ratedGe).take 10 }

/-! ## `main` (lines 143-181): the report assembler -/

/-- The top-level report written to `data.js`. -/
structure Report where
  blackSesame : FlavorSummary
  matcha : FlavorSummary
  ube : FlavorSummary
  flavorComparison : List ComparisonRow
  cityComparison2025 : List CityComparisonRow
  blackSesame2025 : Businesses2025
deriving DecidableEq

/-- The six row sequences `main` reads from disk (the Row Source is an
external collaborator; file I/O is out of scope). -/
structure Inputs where
  blackSesameRows : List Row
  matchaRows : List Row
  ubeRows : List Row
  comparisonRows : List Row
  comparison2025Rows : List Row
  businesses2025Rows : List Row

/-- The pure content of `main`: run every processor and assemble the report.
Every container iterated anywhere is insertion-ordered and every sort is
stable, so this is a function of the input row sequences. -/
def buildReport (i : Inputs) : Except Unit Report := do
  let bs ← process_flavor i.blackSesameRows
  let ma ← process_flavor i.matchaRows
  let ub ← process_flavor i.ubeRows
  let comp ← process_comparison_summary i.comparisonRows
  let cc ← process_2025_comparison i.comparison2025Rows
  let b25 ← process_2025_businesses i.businesses2025Rows
  Except.ok
    { blackSesame := bs, matcha := ma, ube := ub, flavorComparison := comp,
      cityComparison2025 := cc, blackSesame2025 := b25 }

/-! ## Infrastructure: `Except` binds, `mapM`, `foldlM` -/

theorem except_bind_ok {ε α β : Type} (x : Except ε α) (f : α → Except ε β) (b : β) :
    (x >>= f) = Except.ok b ↔ ∃ a, x = Except.ok a ∧ f a = Except.ok b := by
  cases x <;> simp [Bind.bind, Except.bind]

theorem mapM_ok_of_forall {α β : Type} (f : α → Except Unit β) :
    ∀ l : List α, (∀ a ∈ l, ∃ b, f a = Except.ok b) →
      ∃ bs : List β, l.mapM f = Except.ok bs
  | [], _ => ⟨[], rfl⟩
  | a :: l, h => by
    obtain ⟨b, hb⟩ := h a (List.mem_cons_self a l)
    obtain ⟨bs, hbs⟩ := mapM_ok_of_forall f l (fun x hx => h x (List.mem_cons_of_mem a hx))
    exact ⟨b :: bs, by rw [List.mapM_cons, hb, hbs]; rfl⟩

theorem mapM_ok_mem {α β : Type} (f : α → Except Unit β) :
    ∀ (l : List α) (bs : List β), l.mapM f = Except.ok bs →
      ∀ a ∈ l, ∃ b ∈ bs, f a = Except.ok b
  | [], _, _, _, ha => absurd ha (List.not_mem_nil _)
  | x :: l, bs, h, a, ha => by
    rw [List.mapM_cons] at h
    rw [except_bind_ok] at h
    obtain ⟨b, hb, h⟩ := h
    rw [except_bind_ok] at h
    obtain ⟨bs', hbs', h⟩ := h
    have hbseq : bs = b :: bs' := by
      simpa [pure, Except.pure] using h.symm
    subst hbseq
    rcases List.mem_cons.mp ha with rfl | ha'
    · exact ⟨b, List.mem_cons_self b bs', hb⟩
    · obtain ⟨y, hy, hfy⟩ := mapM_ok_mem f l bs' hbs' a ha'
      exact ⟨y, List.mem_cons_of_mem b hy, hfy⟩

theorem mapM_ok_mem_rev {α β : Type} (f : α → Except Unit β) :
    ∀ (l : List α) (bs : List β), l.mapM f = Except.ok bs →
      ∀ b ∈ bs, ∃ a ∈ l, f a = Except.ok b
  | [], bs, h, b, hb => by
    simp only [List.mapM_nil] at h
    have : bs = [] := by simpa [pure, Except.pure] using h.symm
    subst this
    exact absurd hb (List.not_mem_nil _)
  | x :: l, bs, h, b, hb => by
    rw [List.mapM_cons] at h
    rw [except_bind_ok] at h
    obtain ⟨y, hy, h⟩ := h
    rw [except_bind_ok] at h
    obtain ⟨bs', hbs', h⟩ := h
    have hbseq : bs = y :: bs' := by
      simpa [pure, Except.pure] using h.symm
    subst hbseq
    rcases List.mem_cons.mp hb with rfl | hb'
    · exact ⟨x, List.mem_cons_self x l, hy⟩
    · obtain ⟨a, ha, hfa⟩ := mapM_ok_mem_rev f l bs' hbs' b hb'
      exact ⟨a, List.mem_cons_of_mem x ha, hfa⟩

theorem ok_bind {ε α β : Type} (a : α) (f : α → Except ε β) :
    (Except.ok a >>= f) = f a := rfl

theorem error_bind {ε α β : Type} (e : ε) (f : α → Except ε β) :
    ((Except.error e : Except ε α) >>= f) = Except.error e := rfl

theorem mapM_error_of_mem {α β : Type} (f : α → Except Unit β) :
    ∀ (l : List α) (a : α), a ∈ l → f a = Except.error () →
      l.mapM f = Except.error ()
  | [], _, ha, _ => absurd ha (List.not_mem_nil _)
  | x :: l, a, ha, hfa => by
    rw [List.mapM_cons]
    rcases List.mem_cons.mp ha with rfl | ha'
    · rw [hfa, error_bind]
    · cases hfx : f x with
      | error e => cases e; rw [error_bind]
      | ok b =>
        have hrec := mapM_error_of_mem f l a ha' hfa
        rw [ok_bind, hrec, error_bind]

theorem foldlM_ok_of_forall {σ α : Type} (step : σ → α → Except Unit σ) :
    ∀ (l : List α) (init : σ), (∀ s a, a ∈ l → ∃ s', step s a = Except.ok s') →
      ∃ out, l.foldlM step init = Except.ok out
  | [], init, _ => ⟨init, rfl⟩
  | x :: l, init, h => by
    obtain ⟨s', hs'⟩ := h init x (List.mem_cons_self x l)
    obtain ⟨out, hout⟩ :=
      foldlM_ok_of_forall step l s' (fun s a ha => h s a (List.mem_cons_of_mem x ha))
    refine ⟨out, ?_⟩
    show (step init x >>= fun s => l.foldlM step s) = Except.ok out
    rw [hs']
    exact hout

theorem foldlM_append_except {σ α : Type} (step : σ → α → Except Unit σ) :
    ∀ (l₁ : List α) (l₂ : List α) (init : σ),
      (l₁ ++ l₂).foldlM step init = (l₁.foldlM step init) >>= fun s => l₂.foldlM step s
  | [], l₂, init => rfl
  | x :: l₁, l₂, init => by
    show (step init x >>= fun s => (l₁ ++ l₂).foldlM step s)
        = ((step init x >>= fun s => l₁.foldlM step s) >>= fun s => l₂.foldlM step s)
    cases hx : step init x with
    | error e => rfl
    | ok s => exact foldlM_append_except step l₁ l₂ s


/-! ## Infrastructure: the Counter model -/

theorem countGet_bump {α : Type} [BEq α] [LawfulBEq α] (k k' : α) :
    ∀ acc : List (α × Nat),
      countGet (bump acc k') k = countGet acc k + (if k' == k then 1 else 0)
  | [] => by
    by_cases h : k' == k <;> simp [bump, countGet, h]
  | p :: ps => by
    by_cases hp : p.1 == k'
    · by_cases hq : p.1 == k
      · have hk : (k' == k) = true := by
          rw [beq_iff_eq] at hp hq ⊢; rw [← hp, hq]
        simp [bump, countGet, hp, hq, hk]
      · have hk : (k' == k) = false := by
          rw [beq_iff_eq] at hp; rw [beq_eq_false_iff_ne]
          intro h
          exact absurd (by rw [hp, h]; exact beq_self_eq_true k : (p.1 == k) = true) hq
        simp [bump, countGet, hp, hq, hk]
    · by_cases hq : p.1 == k
      · have hk : (k' == k) = false := by
          rw [beq_iff_eq] at hq; rw [beq_eq_false_iff_ne]
          intro h
          exact absurd (by rw [hq, ← h]; exact beq_self_eq_true k' : (p.1 == k') = true) hp
        simp [bump, countGet, hp, hq, hk]
      · simp [bump, countGet, hp, hq, countGet_bump k k' ps]

theorem countGet_foldl_bump {α : Type} [BEq α] [LawfulBEq α] (k : α) :
    ∀ (ks : List α) (acc : List (α × Nat)),
      countGet (ks.foldl bump acc) k = countGet acc k + ks.count k
  | [], acc => by simp [countGet, List.count_nil]
  | a :: ks, acc => by
    rw [List.foldl_cons, countGet_foldl_bump k ks (bump acc a), countGet_bump,
      List.count_cons]
    by_cases h : a == k
    · simp [h]
      omega
    · simp [h]

/-- The count recorded for `k` by `Counter(ks)` is the number of occurrences
of `k` in `ks`. -/
theorem countGet_countKeys {α : Type} [BEq α] [LawfulBEq α] (ks : List α) (k : α) :
    countGet (countKeys ks) k = ks.count k := by
  have h := countGet_foldl_bump k ks []
  simpa [countKeys, countGet] using h

theorem bump_pos {α : Type} [BEq α] (k : α) :
    ∀ acc : List (α × Nat), (∀ p ∈ acc, 0 < p.2) → ∀ p ∈ bump acc k, 0 < p.2
  | [], _ => by simp [bump]
  | q :: qs, h => by
    by_cases hq : q.1 == k
    · simp only [bump, hq, if_true]
      intro p hp
      rcases List.mem_cons.mp hp with rfl | hp'
      · simp
      · exact h p (List.mem_cons_of_mem q hp')
    · simp only [bump, hq, Bool.false_eq_true, if_false]
      intro p hp
      rcases List.mem_cons.mp hp with rfl | hp'
      · exact h _ (List.mem_cons_self _ _)
      · exact bump_pos k qs (fun x hx => h x (List.mem_cons_of_mem q hx)) p hp'

/-- Every count in `Counter(ks)` is positive. -/
theorem countKeys_pos {α : Type} [BEq α] (ks : List α) :
    ∀ p ∈ countKeys ks, 0 < p.2 := by
  suffices h : ∀ (ks : List α) (acc : List (α × Nat)), (∀ p ∈ acc, 0 < p.2) →
      ∀ p ∈ ks.foldl bump acc, 0 < p.2 by
    exact h ks [] (by simp)
  intro ks
  induction ks with
  | nil => intro acc h; simpa using h
  | cons a ks ih =>
    intro acc h
    rw [List.foldl_cons]
    exact ih (bump acc a) (bump_pos a acc h)

theorem bump_map_fst {α : Type} [BEq α] (k : α) :
    ∀ acc : List (α × Nat),
      (bump acc k).map Prod.fst =
        if acc.any (fun p => p.1 == k) then acc.map Prod.fst
        else acc.map Prod.fst ++ [k]
  | [] => by simp [bump]
  | q :: qs => by
    by_cases hq : q.1 == k
    · simp [bump, hq]
    · simp only [bump, hq, Bool.false_eq_true, if_false, List.map_cons, List.any_cons,
        Bool.false_or, bump_map_fst k qs]
      by_cases h2 : qs.any (fun p => p.1 == k) <;> simp [h2]

theorem mem_keys_bump {α : Type} [BEq α] [LawfulBEq α] (k a : α)
    (acc : List (α × Nat)) :
    a ∈ (bump acc k).map Prod.fst ↔ a ∈ acc.map Prod.fst ∨ a = k := by
  rw [bump_map_fst]
  by_cases h : acc.any (fun p => p.1 == k)
  · simp only [h, if_true]
    constructor
    · exact Or.inl
    · rintro (ha | rfl)
      · exact ha
      · obtain ⟨p, hp, hpk⟩ := List.any_eq_true.mp h
        rw [beq_iff_eq] at hpk
        exact hpk ▸ List.mem_map_of_mem Prod.fst hp
  · simp [h, List.mem_append]

theorem mem_keys_foldl_bump {α : Type} [BEq α] [LawfulBEq α] (a : α) :
    ∀ (ks : List α) (acc : List (α × Nat)),
      a ∈ (ks.foldl bump acc).map Prod.fst ↔ a ∈ acc.map Prod.fst ∨ a ∈ ks
  | [], acc => by simp
  | x :: ks, acc => by
    rw [List.foldl_cons, mem_keys_foldl_bump a ks (bump acc x), mem_keys_bump]
    simp only [List.mem_cons]
    tauto

/-- The keys of `Counter(ks)` are exactly the distinct values of `ks`. -/
theorem mem_keys_countKeys {α : Type} [BEq α] [LawfulBEq α] (ks : List α) (a : α) :
    a ∈ (countKeys ks).map Prod.fst ↔ a ∈ ks := by
  have h := mem_keys_foldl_bump a ks []
  simpa [countKeys] using h

/-- The keys of `Counter(ks)` are distinct. -/
theorem nodup_keys_countKeys {α : Type} [BEq α] [LawfulBEq α] (ks : List α) :
    ((countKeys ks).map Prod.fst).Nodup := by
  suffices h : ∀ (ks : List α) (acc : List (α × Nat)), (acc.map Prod.fst).Nodup →
      ((ks.foldl bump acc).map Prod.fst).Nodup by
    exact h ks [] (by simp)
  intro ks
  induction ks with
  | nil => intro acc h; simpa using h
  | cons x ks ih =>
    intro acc h
    rw [List.foldl_cons]
    refine ih (bump acc x) ?_
    rw [bump_map_fst]
    by_cases hx : acc.any (fun p => p.1 == x)
    · simpa [hx] using h
    · simp only [hx, Bool.false_eq_true, if_false]
      rw [List.nodup_append]
      refine ⟨h, List.nodup_singleton x, ?_⟩
      intro a ha hax
      rw [List.mem_singleton] at hax
      subst hax
      obtain ⟨p, hp, hpa⟩ := List.mem_map.mp ha
      exact absurd
        (List.any_eq_true.mpr ⟨p, hp, by rw [hpa]; exact beq_self_eq_true _⟩) hx

/-- Index of the first occurrence of `a` in a list (the length when absent):
the position at which a key's frequency is first observed. -/
def firstIdx {α : Type} [BEq α] : List α → α → Nat
  | [], _ => 0
  | x :: xs, a => if x == a then 0 else firstIdx xs a + 1

theorem firstIdx_append_of_mem {α : Type} [BEq α] [LawfulBEq α] {a : α} :
    ∀ {l₁ : List α} (l₂ : List α), a ∈ l₁ → firstIdx (l₁ ++ l₂) a = firstIdx l₁ a
  | [], _, ha => absurd ha (List.not_mem_nil _)
  | x :: l₁, l₂, ha => by
    by_cases hx : x == a
    · simp [firstIdx, hx]
    · have ha' : a ∈ l₁ := by
        rcases List.mem_cons.mp ha with rfl | h
        · exact absurd (beq_self_eq_true a) (by simp at hx)
        · exact h
      simp [firstIdx, hx, firstIdx_append_of_mem l₂ ha']

theorem firstIdx_append_of_not_mem {α : Type} [BEq α] [LawfulBEq α] {a : α} :
    ∀ {l₁ : List α} (l₂ : List α), a ∉ l₁ →
      firstIdx (l₁ ++ l₂) a = l₁.length + firstIdx l₂ a
  | [], _, _ => by simp [firstIdx]
  | x :: l₁, l₂, ha => by
    have hx : (x == a) = false := by
      rw [beq_eq_false_iff_ne]
      intro h; exact ha (h ▸ List.mem_cons_self x l₁)
    have ha' : a ∉ l₁ := fun h => ha (List.mem_cons_of_mem x h)
    simp [firstIdx, hx, firstIdx_append_of_not_mem l₂ ha']
    omega

theorem firstIdx_lt_length {α : Type} [BEq α] [LawfulBEq α] {a : α} :
    ∀ {l : List α}, a ∈ l → firstIdx l a < l.length
  | [], ha => absurd ha (List.not_mem_nil _)
  | x :: l, ha => by
    by_cases hx : x == a
    · simp [firstIdx, hx]
    · have ha' : a ∈ l := by
        rcases List.mem_cons.mp ha with rfl | h
        · exact absurd (beq_self_eq_true a) (by simp at hx)
        · exact h
      simp only [firstIdx, hx, Bool.false_eq_true, if_false, List.length_cons]
      exact Nat.succ_lt_succ (firstIdx_lt_length ha')

/-- The keys of `Counter(ks)` are listed in strictly increasing order of the
position of their first occurrence in `ks` (Python dict insertion order). -/
theorem countKeys_keys_pairwise_firstIdx {α : Type} [BEq α] [LawfulBEq α]
    (ks : List α) :
    ((countKeys ks).map Prod.fst).Pairwise
      (fun a b => firstIdx ks a < firstIdx ks b) := by
  induction ks using List.reverseRecOn with
  | nil => simp [countKeys]
  | append_singleton ks k ih =>
    have hfold : countKeys (ks ++ [k]) = bump (countKeys ks) k := by
      simp [countKeys, List.foldl_append]
    have hmemkeys : ∀ a, a ∈ (countKeys ks).map Prod.fst → a ∈ ks :=
      fun a ha => (mem_keys_countKeys ks a).mp ha
    rw [hfold, bump_map_fst]
    by_cases hk : (countKeys ks).any (fun p => p.1 == k)
    · rw [if_pos hk]
      refine ih.imp_of_mem ?_
      intro a b hamem hbmem hab
      rw [firstIdx_append_of_mem [k] (hmemkeys a hamem),
        firstIdx_append_of_mem [k] (hmemkeys b hbmem)]
      exact hab
    · rw [if_neg hk]
      have hknotin : k ∉ ks := by
        intro hkin
        obtain ⟨p, hp, hpk⟩ := List.mem_map.mp ((mem_keys_countKeys ks k).mpr hkin)
        exact hk (List.any_eq_true.mpr ⟨p, hp, by rw [hpk]; exact beq_self_eq_true _⟩)
      rw [List.pairwise_append]
      refine ⟨?_, List.pairwise_singleton _ _, ?_⟩
      · refine ih.imp_of_mem ?_
        intro a b hamem hbmem hab
        rw [firstIdx_append_of_mem [k] (hmemkeys a hamem),
          firstIdx_append_of_mem [k] (hmemkeys b hbmem)]
        exact hab
      · intro a hamem b hbmem
        rw [List.mem_singleton] at hbmem
        subst hbmem
        rw [firstIdx_append_of_mem [b] (hmemkeys a hamem),
          firstIdx_append_of_not_mem [b] hknotin]
        have h1 : firstIdx ks a < ks.length := firstIdx_lt_length (hmemkeys a hamem)
        omega

/-- Specification of a count-and-rank fragment produced from the key sequence
`ks`: at most `n` entries, counts non-increasing, no zero counts, complete when
fewer than `n` distinct keys exist, equal-count entries in Counter
(first-observation) order, and the Counter keys themselves in strictly
increasing first-observation position. -/
def TopNSpec (n : Nat) (ks : List String) (L : List (String × Nat)) : Prop :=
  L.length ≤ n ∧
  L.Pairwise (fun a b => b.2 ≤ a.2) ∧
  (∀ p ∈ L, 0 < p.2) ∧
  ((countKeys ks).length ≤ n → ∀ k ∈ ks, ∃ m, (k, m) ∈ L) ∧
  (∀ c : Nat,
    L.filter (fun p => p.2 == c) <+: (countKeys ks).filter (fun p => p.2 == c)) ∧
  ((countKeys ks).map Prod.fst).Pairwise (fun a b => firstIdx ks a < firstIdx ks b)

/-- `most_common n` of `Counter(ks)` meets `TopNSpec`. -/
theorem topNSpec_mostCommon (n : Nat) (ks : List String) :
    TopNSpec n ks (mostCommon n (countKeys ks)) := by
  have hperm : List.Perm ((countKeys ks).insertionSort countGe) (countKeys ks) :=
    List.perm_insertionSort countGe (countKeys ks)
  refine ⟨?_, ?_, ?_, ?_, ?_, countKeys_keys_pairwise_firstIdx ks⟩
  · simp only [mostCommon, List.length_take]
    exact min_le_left n ((countKeys ks).insertionSort countGe).length
  · exact ((List.sorted_insertionSort countGe (countKeys ks)).sublist
      (List.take_sublist _ _))
  · intro p hp
    exact countKeys_pos ks p (hperm.mem_iff.mp (List.mem_of_mem_take hp))
  · intro hlen k hk
    have hkeys : k ∈ (countKeys ks).map Prod.fst := (mem_keys_countKeys ks k).mpr hk
    obtain ⟨p, hp, hpk⟩ := List.mem_map.mp hkeys
    have hlen' : ((countKeys ks).insertionSort countGe).length ≤ n := by
      rwa [List.length_insertionSort]
    refine ⟨p.2, ?_⟩
    rw [mostCommon, List.take_of_length_le hlen']
    have : (k, p.2) = p := by rw [← hpk]
    rw [this]
    exact hperm.mem_iff.mpr hp
  · intro c
    set q : String × Nat → Bool := fun p => p.2 == c with hq
    set F := (countKeys ks).filter q with hF
    have hFsub : List.Sublist F (countKeys ks) := List.filter_sublist _
    have hFpw : F.Pairwise countGe := by
      refine List.pairwise_of_forall_mem_list ?_
      intro a ha b hb
      have ha2 : a.2 = c := by simpa [hq, List.mem_filter] using (List.mem_filter.mp ha).2
      have hb2 : b.2 = c := by simpa [hq, List.mem_filter] using (List.mem_filter.mp hb).2
      show b.2 ≤ a.2
      rw [ha2, hb2]
    have hFS : List.Sublist F ((countKeys ks).insertionSort countGe) :=
      List.sublist_insertionSort hFpw hFsub
    have hSF : ((countKeys ks).insertionSort countGe).filter q = F := by
      refine (List.Sublist.eq_of_length ?_ ?_).symm
      · have h1 : List.Sublist (F.filter q)
            (((countKeys ks).insertionSort countGe).filter q) :=
          List.Sublist.filter q hFS
        rwa [List.filter_eq_self.mpr (fun a ha => (List.mem_filter.mp ha).2)] at h1
      · exact (hperm.filter q).length_eq.symm
    refine ⟨(((countKeys ks).insertionSort countGe).drop n).filter q, ?_⟩
    rw [← hSF, mostCommon, ← List.filter_append, List.take_append_drop]

/-! ## Unpacking successful runs of the processors -/

theorem mapM_ok_eq_map {α β : Type} (f : α → Except Unit β) (g : α → β)
    (hfg : ∀ a b, f a = Except.ok b → b = g a) :
    ∀ (l : List α) (bs : List β), l.mapM f = Except.ok bs → bs = l.map g
  | [], bs, h => by
    simp only [List.mapM_nil] at h
    have hb : bs = [] := by simpa [pure, Except.pure] using h.symm
    simp [hb]
  | a :: l, bs, h => by
    rw [List.mapM_cons] at h
    rw [except_bind_ok] at h
    obtain ⟨b, hb, h⟩ := h
    rw [except_bind_ok] at h
    obtain ⟨bs', hbs', h⟩ := h
    have hbseq : bs = b :: bs' := by
      simpa [pure, Except.pure] using h.symm
    subst hbseq
    rw [List.map_cons, ← hfg a b hb, mapM_ok_eq_map f g hfg l bs' hbs']

theorem starObs_ok {r : Row} {o : Option Int} (h : starObs r = Except.ok o) :
    o = starOfRow r := by
  unfold starObs at h
  split at h
  · rename_i hkey
    rw [Except.ok.injEq] at h
    subst h
    simp [starOfRow, hkey]
  · rename_i v hkey
    split at h
    · exact absurd h (by simp)
    · rw [Except.ok.injEq] at h
      subst h
      simp [starOfRow, hkey]

/-- On a run that does not crash, the star loop observes exactly the
successfully truncated ratings. -/
theorem starsOf_ok {rows : List Row} {obs : List Int}
    (h : starsOf rows = Except.ok obs) : obs = rows.filterMap starOfRow := by
  unfold starsOf at h
  rw [except_bind_ok] at h
  obtain ⟨os, hos, h⟩ := h
  rw [Except.ok.injEq] at h
  subst h
  rw [mapM_ok_eq_map starObs starOfRow (fun a b hb => starObs_ok hb) rows os hos]
  simp [List.reduceOption, List.filterMap_map, Function.comp]

theorem process_flavor_ok {rows : List Row} {s : FlavorSummary}
    (h : process_flavor rows = Except.ok s) :
    ∃ yc ck sk tb,
      year_counts rows = Except.ok yc ∧ cityKeys rows = Except.ok ck ∧
      stateKeys rows = Except.ok sk ∧ top_businesses rows = Except.ok tb ∧
      s.totalReviews = rows.length ∧
      s.yearTrends =
        ((yc.map (fun p => p.1)).insertionSort strLe).map
          (fun y => (y, countGet yc y)) ∧
      s.topCities = mostCommon 10 (countKeys ck) ∧
      s.topStates = mostCommon 10 (countKeys sk) ∧
      s.starDistribution = star_dist (rows.filterMap starOfRow) ∧
      s.topCategories = mostCommon 10 (countKeys (catKeys rows)) ∧
      s.topBusinesses = tb := by
  unfold process_flavor at h
  rw [except_bind_ok] at h
  obtain ⟨yc, hyc, h⟩ := h
  rw [except_bind_ok] at h
  obtain ⟨ck, hck, h⟩ := h
  rw [except_bind_ok] at h
  obtain ⟨sobs, hsobs, h⟩ := h
  rw [except_bind_ok] at h
  obtain ⟨sk, hsk, h⟩ := h
  rw [except_bind_ok] at h
  obtain ⟨tb, htb, h⟩ := h
  rw [Except.ok.injEq] at h
  rw [starsOf_ok hsobs] at h
  exact ⟨yc, ck, sk, tb, hyc, hck, hsk, htb, by rw [← h], by rw [← h], by rw [← h],
    by rw [← h], by rw [← h], by rw [← h], by rw [← h]⟩

theorem process_2025_businesses_ok {rows : List Row} {out : Businesses2025}
    (h : process_2025_businesses rows = Except.ok out) :
    ∃ ck sk rated,
      cityKeys2025 rows = Except.ok ck ∧ stateKeys rows = Except.ok sk ∧
      rows.mapM ratedOfRow = Except.ok rated ∧
      out.total = rows.length ∧
      out.topCities = mostCommon 10 (countKeys ck) ∧
      out.topStates = mostCommon 10 (countKeys sk) ∧
      out.topRated = (rated.reduceOption.insertionSort ratedGe).take 10 := by
  unfold process_2025_businesses at h
  rw [except_bind_ok] at h
  obtain ⟨ck, hck, h⟩ := h
  rw [except_bind_ok] at h
  obtain ⟨sk, hsk, h⟩ := h
  rw [except_bind_ok] at h
  obtain ⟨rated, hrated, h⟩ := h
  rw [Except.ok.injEq] at h
  exact ⟨ck, sk, rated, hck, hsk, hrated, by rw [← h], by rw [← h], by rw [← h],
    by rw [← h]⟩

/-! ## Example inputs used by the witnesses -/

/-- The two-row example of spec §8 (one clean row, one with empty/unparsable
fields). -/
def exRows : List Row :=
  [[("year", "2020"), ("city", "Austin"), ("state", "TX"), ("stars_x", "4.5"),
    ("categories", "Bakery, Dessert"), ("name", "A")],
   [("year", "2020"), ("city", ""), ("state", ""), ("stars_x", "bad"),
    ("categories", ""), ("name", "A")]]

/-- The summary `process_flavor` computes for `exRows`. -/
def exSummary : FlavorSummary :=
  { totalReviews := 2
    yearTrends := [("2020", 2)]
    topCities := [("Austin, TX", 1)]
    topStates := [("TX", 1)]
    starDistribution := [(1, 0), (2, 0), (3, 0), (4, 1), (5, 0)]
    topCategories := [("Bakery", 1), ("Dessert", 1)]
    topBusinesses := [{ name := "A", location := ", ", reviews := 2, rating := 9/4 }] }

/-! ## The claims -/

/-- **C1**: whenever `process_flavor` produces a Dataset Summary, its
`totalReviews` field is the exact number of input row records — it does not
depend on how many rows had missing, empty, or unparsable fields, since no
coercion outcome feeds into `len(rows)`. -/
theorem C1_totalReviews_eq_row_count (rows : List Row) (s : FlavorSummary)
    (h : process_flavor rows = Except.ok s) : s.totalReviews = rows.length := by
  obtain ⟨_, _, _, _, _, _, _, _, ht, _⟩ := process_flavor_ok h
  exact ht

/-- Witness for C1 at the spec §8 example (a row with empty and unparsable
fields still counts toward the total). -/
theorem C1_witness : exSummary.totalReviews = exRows.length :=
  C1_totalReviews_eq_row_count exRows exSummary (by with_unfolding_all rfl)

/-- A list of integers has at most `length` elements distributed over the five
star buckets (the buckets are disjoint). -/
theorem ite_five_le_one (a : Int) :
    (if a = (1 : Int) then 1 else 0) + (if a = (2 : Int) then 1 else 0) +
      (if a = (3 : Int) then 1 else 0) + (if a = (4 : Int) then 1 else 0) +
      (if a = (5 : Int) then 1 else 0) ≤ 1 := by
  split_ifs <;> omega

theorem sum_five_counts_le (m : List Int) :
    m.count 1 + m.count 2 + m.count 3 + m.count 4 + m.count 5 ≤ m.length := by
  induction m with
  | nil => simp
  | cons a m ih =>
    have key : ∀ b : Int, List.count b (a :: m) = List.count b m +
        if a = b then 1 else 0 := by
      intro b
      rw [List.count_cons]
      simp [beq_iff_eq]
    rw [key 1, key 2, key 3, key 4, key 5]
    have hone := ite_five_le_one a
    simp only [List.length_cons]
    omega

/-- **C3**: the star distribution fragment has exactly 5 entries, for stars 1
through 5 in ascending order; the count of bucket `st` is the number of rows
whose `stars_x` parses as a float and truncates toward zero to `st` (rows that
fail to parse are skipped, so empty buckets report 0 and out-of-range
truncations are silently dropped); and the five counts sum to at most the
total row count. -/
theorem C3_star_distribution (rows : List Row) (s : FlavorSummary)
    (h : process_flavor rows = Except.ok s) :
    s.starDistribution.map Prod.fst = [1, 2, 3, 4, 5] ∧
    s.starDistribution.length = 5 ∧
    (∀ st c, (st, c) ∈ s.starDistribution →
      c = (rows.filterMap starOfRow).count st) ∧
    (s.starDistribution.map Prod.snd).sum ≤ rows.length := by
  obtain ⟨_, _, _, _, _, _, _, _, _, _, _, _, hsd, _, _⟩ := process_flavor_ok h
  rw [hsd]
  have hm : (star_dist (rows.filterMap starOfRow)).map Prod.snd =
      [(rows.filterMap starOfRow).count 1, (rows.filterMap starOfRow).count 2,
       (rows.filterMap starOfRow).count 3, (rows.filterMap starOfRow).count 4,
       (rows.filterMap starOfRow).count 5] := by
    simp [star_dist, star_counts, List.map_map, List.range',
      countGet_countKeys]
  refine ⟨?_, ?_, ?_, ?_⟩
  · rfl
  · rfl
  · intro st c hmem
    simp only [star_dist, List.mem_map] at hmem
    obtain ⟨n, _, heq⟩ := hmem
    rw [Prod.mk.injEq] at heq
    obtain ⟨h1, h2⟩ := heq
    rw [← h2, ← h1, star_counts, countGet_countKeys]
  · rw [hm]
    have h1 := sum_five_counts_le (rows.filterMap starOfRow)
    have h2 := List.length_filterMap_le starOfRow rows
    simp only [List.sum_cons, List.sum_nil]
    omega

/-- Witness for C3 at the spec §8 example: buckets run 1–5 and the counts sum
to 1 ≤ 2 (the `"bad"` rating was skipped). -/
theorem C3_witness :
    exSummary.starDistribution.map Prod.fst = [1, 2, 3, 4, 5] ∧
    (exSummary.starDistribution.map Prod.snd).sum ≤ exRows.length :=
  ⟨(C3_star_distribution exRows exSummary (by with_unfolding_all rfl)).1,
   (C3_star_distribution exRows exSummary (by with_unfolding_all rfl)).2.2.2⟩

/-- **C2**: each count-and-rank fragment (top cities, top states, top
categories) has at most 10 entries, counts are non-increasing, no entry has
count 0, all distinct keys appear when there are at most 10 of them, entries of
equal count appear in Counter order, and the Counter lists keys in strictly
increasing first-observation position — so ties are broken by the order each
key's frequency was first observed. -/
theorem C2_rank_fragments (rows : List Row) (s : FlavorSummary)
    (h : process_flavor rows = Except.ok s) :
    ∃ ck sk, cityKeys rows = Except.ok ck ∧ stateKeys rows = Except.ok sk ∧
      TopNSpec 10 ck s.topCities ∧ TopNSpec 10 sk s.topStates ∧
      TopNSpec 10 (catKeys rows) s.topCategories := by
  obtain ⟨yc, ck, sk, tb, hyc, hck, hsk, htb, _, _, hc, hst, _, hcat, _⟩ :=
    process_flavor_ok h
  refine ⟨ck, sk, hck, hsk, ?_, ?_, ?_⟩
  · rw [hc]; exact topNSpec_mostCommon 10 ck
  · rw [hst]; exact topNSpec_mostCommon 10 sk
  · rw [hcat]; exact topNSpec_mostCommon 10 (catKeys rows)

/-- Witness for C2 at the spec §8 example. -/
theorem C2_witness :
    exSummary.topCities.length ≤ 10 ∧ exSummary.topStates.length ≤ 10 ∧
    exSummary.topCategories.length ≤ 10 := by
  obtain ⟨ck, sk, hck, hsk, hc, hst, hcat⟩ :=
    C2_rank_fragments exRows exSummary (by with_unfolding_all rfl)
  exact ⟨hc.1, hst.1, hcat.1⟩

/-- A row (of a dataset whose header lacks a `year` column) on which the
Dataset Processor raises `KeyError` at the year Counter. -/
def noYearRow : Row :=
  [("city", "Austin"), ("state", "TX"), ("stars_x", "4.0"),
   ("categories", "Bakery"), ("name", "A")]

/-- A row whose `stars_x` is the float literal `inf`: `float()` succeeds with
an infinity and the star loop's `int(·)` raises an uncaught OverflowError. -/
def infStarRow : Row :=
  [("year", "2020"), ("city", "Austin"), ("state", "TX"), ("stars_x", "inf"),
   ("name", "A")]

/-- A row whose `stars_x` overflows the IEEE double range: `float("2e308")`
returns `inf`, so the star loop crashes the same way. -/
def overflowStarRow : Row :=
  [("year", "2020"), ("city", "Austin"), ("state", "TX"),
   ("stars_x", "2e308"), ("name", "A")]

set_option maxRecDepth 2048 in
set_option exponentiation.threshold 400 in
/-- **C5 counterexample**: the Dataset Processor does not survive every
missing or malformed field, in two ways.  (i) A dataset lacking the `year`
column does not yield an empty trend list: `r["year"]` raises an uncaught
`KeyError` in the year Counter generator (line 18).  (ii) A coercion failure
can terminate processing: when `stars_x` is `"inf"` or the overflowing
`"2e308"`, `float()` returns an infinity and `int(·)` raises an
`OverflowError` that the star loop's `except (ValueError, KeyError)` handler
does not catch. -/
theorem C5_counterexample :
    process_flavor [noYearRow] = Except.error () ∧
    process_flavor [infStarRow] = Except.error () ∧
    process_flavor [overflowStarRow] = Except.error () := by
  refine ⟨?_, ?_, ?_⟩
  · with_unfolding_all rfl
  · with_unfolding_all rfl
  · with_unfolding_all rfl

/-- Python `float(r["stars_x"])` would return an infinity for this row: the
uncaught-OverflowError condition of the star loop. -/
def rowStarsInfinite (r : Row) : Bool :=
  ((getKey r "stars_x").map floatIsInfinite).getD false

/-- **C5 (amended)**: the Dataset Processor completes whenever every row has
the `year`, `city` and `state` columns (the unguarded `r[...]` lookups) and no
row has an infinite-float `stars_x` (an `inf`/`infinity` literal or a decimal
overflowing the IEEE double range, where `int(float(...))` raises an uncaught
OverflowError).  Under those conditions every remaining coercion failure —
missing, unparsable or NaN `stars_x`, missing `categories`, missing `name` —
is tolerated row-locally and no exception terminates processing; the
corresponding reducers just produce empty or partial fragments.  Datasets
violating either condition crash (see the counterexample). -/
theorem C5_processor_total (rows : List Row)
    (h : ∀ r ∈ rows, (getKey r "year").isSome ∧ (getKey r "city").isSome ∧
      (getKey r "state").isSome)
    (hstars : ∀ r ∈ rows, rowStarsInfinite r = false) :
    ∃ s, process_flavor rows = Except.ok s := by
  obtain ⟨ys, hys⟩ := mapM_ok_of_forall yearKey rows (fun r hr => by
    obtain ⟨hy, _, _⟩ := h r hr
    obtain ⟨v, hv⟩ := Option.isSome_iff_exists.mp hy
    exact ⟨v, by simp [yearKey, req, hv]⟩)
  obtain ⟨cs, hcs⟩ := mapM_ok_of_forall cityKey rows (fun r hr => by
    obtain ⟨_, hc, hs⟩ := h r hr
    obtain ⟨c, hcv⟩ := Option.isSome_iff_exists.mp hc
    obtain ⟨st, hsv⟩ := Option.isSome_iff_exists.mp hs
    simp only [cityKey, hcv, hsv]
    by_cases hc0 : c = ""
    · exact ⟨none, by rw [if_pos hc0]⟩
    · rw [if_neg hc0]
      by_cases hs0 : st = ""
      · exact ⟨none, by rw [if_pos hs0]⟩
      · exact ⟨some (c ++ ", " ++ st), by rw [if_neg hs0]⟩)
  obtain ⟨sobs, hsobs⟩ := mapM_ok_of_forall starObs rows (fun r hr => by
    have hst := hstars r hr
    unfold rowStarsInfinite at hst
    unfold starObs
    cases hkey : getKey r "stars_x" with
    | none => exact ⟨none, rfl⟩
    | some v =>
      rw [hkey] at hst
      simp only [Option.map_some', Option.getD_some] at hst
      refine ⟨(parseFloat? v).map truncToInt, ?_⟩
      show (if floatIsInfinite v = true then (Except.error () : Except Unit (Option Int))
          else Except.ok ((parseFloat? v).map truncToInt)) =
        Except.ok ((parseFloat? v).map truncToInt)
      rw [if_neg (by rw [hst]; exact Bool.false_ne_true)])
  obtain ⟨sts, hsts⟩ := mapM_ok_of_forall stateKey rows (fun r hr => by
    obtain ⟨_, _, hs⟩ := h r hr
    obtain ⟨st, hsv⟩ := Option.isSome_iff_exists.mp hs
    exact ⟨st, by simp [stateKey, req, hsv]⟩)
  obtain ⟨accs, haccs⟩ := foldlM_ok_of_forall bizStep rows [] (fun acc r hr => by
    obtain ⟨_, hc, hs⟩ := h r hr
    obtain ⟨c, hcv⟩ := Option.isSome_iff_exists.mp hc
    obtain ⟨st, hsv⟩ := Option.isSome_iff_exists.mp hs
    simp only [bizStep]
    by_cases hn : rowName r = ""
    · exact ⟨acc, by rw [if_pos hn]⟩
    · rw [if_neg hn]
      have hloc : rowLoc r = Except.ok (c ++ ", " ++ st) := by
        simp only [rowLoc, hcv, hsv]
      rw [hloc, ok_bind]
      exact ⟨_, rfl⟩)
  have h1 : year_counts rows =
      Except.ok (countKeys (ys.filter (fun v => v != ""))) := by
    unfold year_counts yearKeys
    rw [hys, ok_bind, ok_bind]
  have h2 : cityKeys rows = Except.ok cs.reduceOption := by
    unfold cityKeys
    rw [hcs, ok_bind]
  have h5 : starsOf rows = Except.ok sobs.reduceOption := by
    unfold starsOf
    rw [hsobs, ok_bind]
  have h3 : stateKeys rows = Except.ok (sts.filter (fun v => v != "")) := by
    unfold stateKeys
    rw [hsts, ok_bind]
  have h4 : top_businesses rows =
      Except.ok (((accs.insertionSort bizGe).take 10).map finalizeBiz) := by
    unfold top_businesses biz_reviews
    rw [haccs, ok_bind]
  exact ⟨_, by
    unfold process_flavor
    rw [h1, ok_bind, h2, ok_bind, h5, ok_bind, h3, ok_bind, h4, ok_bind]⟩

/-- Rows whose `stars_x` fails float coercion (caught, row-local) but which
keep the mandatory columns and stay finite: processing completes (witness for
the amended C5). -/
def c5Rows : List Row :=
  [[("year", ""), ("city", "Reno"), ("state", "NV"), ("stars_x", "oops")]]

/-- Witness for the amended C5. -/
theorem C5_witness : ∃ s, process_flavor c5Rows = Except.ok s :=
  C5_processor_total c5Rows (by with_unfolding_all decide)
    (by with_unfolding_all decide)

theorem req_ok {α : Type} (o : Option α) (a : α) :
    req o = Except.ok a ↔ o = some a := by
  cases o <;> simp [req]

/-- A numeric coercion failure in a row of the flavor comparison summary:
one of the four numeric columns is missing or unparsable. -/
def summaryNumericFailure (r : Row) : Prop :=
  (getKey r "Total Mentions").bind parseInt? = none ∨
  (getKey r "Unique Businesses").bind parseInt? = none ∨
  (getKey r "Cities").bind parseInt? = none ∨
  (getKey r "Avg Review Rating").bind parseFloat? = none

/-- A numeric coercion failure in a row of the 2025 city comparison. -/
def comparison2025NumericFailure (r : Row) : Prop :=
  (getKey r "business_count").bind parseInt? = none

theorem summaryRow_ok_parses {r : Row} {out : ComparisonRow}
    (h : summaryRow r = Except.ok out) :
    (getKey r "Total Mentions").bind parseInt? = some out.totalMentions ∧
    (getKey r "Unique Businesses").bind parseInt? = some out.uniqueBusinesses ∧
    (getKey r "Cities").bind parseInt? = some out.cities ∧
    (getKey r "Avg Review Rating").bind parseFloat? = some out.avgRating := by
  unfold summaryRow at h
  rw [except_bind_ok] at h
  obtain ⟨fl, _, h⟩ := h
  rw [except_bind_ok] at h
  obtain ⟨tm, htm, h⟩ := h
  rw [except_bind_ok] at h
  obtain ⟨ub, hub, h⟩ := h
  rw [except_bind_ok] at h
  obtain ⟨ci, hci, h⟩ := h
  rw [except_bind_ok] at h
  obtain ⟨ar, har, h⟩ := h
  rw [Except.ok.injEq] at h
  rw [req_ok] at htm hub hci har
  subst h
  exact ⟨htm, hub, hci, har⟩

theorem comparisonRow2025_ok_parses {r : Row} {out : CityComparisonRow}
    (h : comparisonRow2025 r = Except.ok out) :
    (getKey r "business_count").bind parseInt? = some out.businessCount := by
  unfold comparisonRow2025 at h
  rw [except_bind_ok] at h
  obtain ⟨fl, _, h⟩ := h
  rw [except_bind_ok] at h
  obtain ⟨ci, _, h⟩ := h
  rw [except_bind_ok] at h
  obtain ⟨bc, hbc, h⟩ := h
  rw [Except.ok.injEq] at h
  rw [req_ok] at hbc
  subst h
  exact hbc

/-- **C9**: in both comparison processors a numeric coercion failure on any
column of the pre-aggregated table is a hard failure of the whole processing
step (the whole `mapM` errors), not a row-local skip — unlike the best-effort
policy of the flavor reducers. -/
theorem C9_comparison_hard_failure (rows rows2 : List Row) (r r2 : Row) :
    (r ∈ rows → summaryNumericFailure r →
      process_comparison_summary rows = Except.error ()) ∧
    (r2 ∈ rows2 → comparison2025NumericFailure r2 →
      process_2025_comparison rows2 = Except.error ()) := by
  constructor
  · intro hmem hf
    have herr : summaryRow r = Except.error () := by
      cases hsr : summaryRow r with
      | error e => cases e; rfl
      | ok out =>
        exfalso
        obtain ⟨htm, hub, hci, har⟩ := summaryRow_ok_parses hsr
        rcases hf with hf | hf | hf | hf
        · simp [hf] at htm
        · simp [hf] at hub
        · simp [hf] at hci
        · simp [hf] at har
    exact mapM_error_of_mem summaryRow rows r hmem herr
  · intro hmem hf
    have herr : comparisonRow2025 r2 = Except.error () := by
      cases hsr : comparisonRow2025 r2 with
      | error e => cases e; rfl
      | ok out =>
        exfalso
        have hbc := comparisonRow2025_ok_parses hsr
        have hf' : (getKey r2 "business_count").bind parseInt? = none := hf
        simp [hf'] at hbc
    exact mapM_error_of_mem comparisonRow2025 rows2 r2 hmem herr

/-- A flavor comparison row with an unparsable `Total Mentions` column. -/
def badSummaryRow : Row :=
  [("Flavor", "matcha"), ("Total Mentions", "abc"), ("Unique Businesses", "5"),
   ("Cities", "3"), ("Avg Review Rating", "4.2")]

/-- A 2025 comparison row with an unparsable `business_count` column. -/
def badComparisonRow : Row :=
  [("flavor", "ube"), ("city", "LA"), ("business_count", "many")]

/-- Witness for C9: one bad row makes each comparison processor fail whole. -/
theorem C9_witness :
    process_comparison_summary [badSummaryRow] = Except.error () ∧
    process_2025_comparison [badComparisonRow] = Except.error () :=
  ⟨(C9_comparison_hard_failure [badSummaryRow] [badComparisonRow]
      badSummaryRow badComparisonRow).1 (List.mem_cons_self _ _)
      (Or.inl (by with_unfolding_all rfl)),
   (C9_comparison_hard_failure [badSummaryRow] [badComparisonRow]
      badSummaryRow badComparisonRow).2 (List.mem_cons_self _ _)
      (by with_unfolding_all rfl)⟩

/-- **C8**: the pipeline is deterministic.  In the embedding every dict is
iterated in insertion order and every sort is a stable sort w.r.t. a fixed
total preorder, so assembling the report required no nondeterministic choice:
the embedded `main` is a pure function of the six input row sequences, and two
runs on identical inputs produce identical top-level reports (hence identical
serialized bytes). -/
theorem C8_deterministic (i₁ i₂ : Inputs) (h : i₁ = i₂) :
    buildReport i₁ = buildReport i₂ := by
  rw [h]

/-- Witness for C8 at a concrete input. -/
theorem C8_witness :
    buildReport ⟨exRows, [], [], [], [], []⟩ = buildReport ⟨exRows, [], [], [], [], []⟩ :=
  C8_deterministic ⟨exRows, [], [], [], [], []⟩ ⟨exRows, [], [], [], [], []⟩ rfl

/-! ## The business-accumulator fold invariant (for C4, C7, C10) -/

/-- The rows that fold into the accumulator of business `n` (stripped name
equal to `n`). -/
def namedRows (rows : List Row) (n : String) : List Row :=
  rows.filter (fun r => rowName r == n)

/-- The star total business `n` accumulates: each of its rows contributes its
parsed `stars_x`, or 0 when coercion fails. -/
def starSum (rows : List Row) (n : String) : Rat :=
  ((namedRows rows n).map
    (fun r => ((getKey r "stars_x").bind parseFloat?).getD 0)).sum

theorem namedRows_append (rows : List Row) (r : Row) (n : String) :
    namedRows (rows ++ [r]) n =
      namedRows rows n ++ (if rowName r == n then [r] else []) := by
  unfold namedRows
  rw [List.filter_append]
  congr 1
  by_cases h : rowName r == n <;> simp [h]

theorem starSum_append (rows : List Row) (r : Row) (n : String) :
    starSum (rows ++ [r]) n = starSum rows n +
      (if rowName r == n then ((getKey r "stars_x").bind parseFloat?).getD 0
       else 0) := by
  unfold starSum
  rw [namedRows_append]
  by_cases h : rowName r == n <;> simp [h]

theorem updBiz_map_name (stars : Option Rat) (loc n : String) :
    ∀ acc : List BizAcc,
      (updBiz stars loc n acc).map BizAcc.name =
        if acc.any (fun b => b.name == n) then acc.map BizAcc.name
        else acc.map BizAcc.name ++ [n]
  | [] => by simp [updBiz]
  | q :: qs => by
    by_cases hq : q.name == n
    · simp [updBiz, hq]
    · simp only [updBiz, hq, Bool.false_eq_true, if_false, List.map_cons,
        List.any_cons, Bool.false_or, updBiz_map_name stars loc n qs]
      by_cases h2 : qs.any (fun b => b.name == n) <;> simp [h2]

theorem mem_name_updBiz (stars : Option Rat) (loc n m : String)
    (acc : List BizAcc) :
    m ∈ (updBiz stars loc n acc).map BizAcc.name ↔
      m ∈ acc.map BizAcc.name ∨ m = n := by
  rw [updBiz_map_name]
  by_cases h : acc.any (fun b => b.name == n)
  · simp only [h, if_true]
    constructor
    · exact Or.inl
    · rintro (hm | rfl)
      · exact hm
      · obtain ⟨b, hb, hbn⟩ := List.any_eq_true.mp h
        rw [beq_iff_eq] at hbn
        exact hbn ▸ List.mem_map_of_mem BizAcc.name hb
  · simp [h, List.mem_append]

theorem mem_updBiz (stars : Option Rat) (loc n : String) :
    ∀ acc : List BizAcc, (acc.map BizAcc.name).Nodup →
      ∀ b ∈ updBiz stars loc n acc,
        (b ∈ acc ∧ b.name ≠ n) ∨
        (b.name = n ∧
          ((∃ b₀ ∈ acc, b₀.name = n ∧
              b = { name := b₀.name, reviews := b₀.reviews + 1,
                    total_stars := b₀.total_stars + stars.getD 0,
                    location := loc }) ∨
            ((∀ b₀ ∈ acc, b₀.name ≠ n) ∧
              b = { name := n, reviews := 1, total_stars := stars.getD 0,
                    location := loc })))
  | [], _, b, hb => by
    simp only [updBiz, List.mem_singleton] at hb
    exact Or.inr ⟨by rw [hb], Or.inr ⟨by simp, hb⟩⟩
  | q :: qs, hnd, b, hb => by
    rw [List.map_cons, List.nodup_cons] at hnd
    obtain ⟨hqn, hndqs⟩ := hnd
    by_cases hq : q.name == n
    · rw [beq_iff_eq] at hq
      simp only [updBiz, beq_iff_eq, hq, if_true] at hb
      rcases List.mem_cons.mp hb with rfl | hbqs
      · exact Or.inr ⟨rfl, Or.inl ⟨q, List.mem_cons_self q qs, hq, by rw [hq]⟩⟩
      · left
        refine ⟨List.mem_cons_of_mem q hbqs, ?_⟩
        intro hbn
        exact hqn (by rw [hq, ← hbn]; exact List.mem_map_of_mem BizAcc.name hbqs)
    · simp only [updBiz, hq, Bool.false_eq_true, if_false] at hb
      rcases List.mem_cons.mp hb with rfl | hbrest
      · exact Or.inl ⟨List.mem_cons_self b qs, by simpa using hq⟩
      · rcases mem_updBiz stars loc n qs hndqs b hbrest with ⟨hmem, hne⟩ | ⟨hbn, hcase⟩
        · exact Or.inl ⟨List.mem_cons_of_mem q hmem, hne⟩
        · refine Or.inr ⟨hbn, ?_⟩
          rcases hcase with ⟨b₀, hb₀, hb₀n, hbeq⟩ | ⟨hnone, hbeq⟩
          · exact Or.inl ⟨b₀, List.mem_cons_of_mem q hb₀, hb₀n, hbeq⟩
          · refine Or.inr ⟨?_, hbeq⟩
            intro b₀ hb₀
            rcases List.mem_cons.mp hb₀ with rfl | hb₀qs
            · simpa using hq
            · exact hnone b₀ hb₀qs

theorem nodup_name_updBiz (stars : Option Rat) (loc n : String)
    (acc : List BizAcc) (hnd : (acc.map BizAcc.name).Nodup) :
    ((updBiz stars loc n acc).map BizAcc.name).Nodup := by
  rw [updBiz_map_name]
  by_cases h : acc.any (fun b => b.name == n)
  · simpa [h] using hnd
  · simp only [h, Bool.false_eq_true, if_false]
    rw [List.nodup_append]
    refine ⟨hnd, List.nodup_singleton n, ?_⟩
    intro a ha han
    rw [List.mem_singleton] at han
    subst han
    obtain ⟨b, hb, hbn⟩ := List.mem_map.mp ha
    exact absurd
      (List.any_eq_true.mpr ⟨b, hb, by rw [hbn]; exact beq_self_eq_true _⟩) h

theorem foldlM_singleton {σ α : Type} (step : σ → α → Except Unit σ)
    (init : σ) (a : α) : [a].foldlM step init = step init a := by
  show (step init a >>= fun s => pure s) = step init a
  cases step init a with
  | error e => rfl
  | ok s => rfl

/-- What the accumulator of one business records after folding `rows`: a
nonempty name, one review per row bearing the name, the star total of those
rows (0 for each failed coercion), and the location of the last such row. -/
def accEntryOk (rows : List Row) (b : BizAcc) : Prop :=
  b.name ≠ "" ∧
  b.reviews = (namedRows rows b.name).length ∧
  0 < b.reviews ∧
  b.total_stars = starSum rows b.name ∧
  ∃ r, (namedRows rows b.name).getLast? = some r ∧ rowLoc r = Except.ok b.location

/-- Invariant of the whole accumulator list after folding `rows`. -/
def AccsOk (rows : List Row) (accs : List BizAcc) : Prop :=
  (∀ b ∈ accs, accEntryOk rows b) ∧
  (∀ n, n ≠ "" → namedRows rows n ≠ [] → ∃ b ∈ accs, b.name = n) ∧
  (accs.map BizAcc.name).Nodup

theorem accEntryOk_append_of_ne {rows : List Row} {r : Row} {b : BizAcc}
    (hne : rowName r ≠ b.name) (h : accEntryOk rows b) :
    accEntryOk (rows ++ [r]) b := by
  obtain ⟨hbn, hrev, hpos, hts, last, hlast, hloc⟩ := h
  have hne' : (rowName r == b.name) = false := beq_eq_false_iff_ne.mpr hne
  refine ⟨hbn, ?_, hpos, ?_, last, ?_, hloc⟩
  · rw [namedRows_append, hne']
    simpa using hrev
  · rw [starSum_append, hne']
    simpa using hts
  · rw [namedRows_append, hne']
    simpa using hlast

/-- The fold of the top-businesses loop establishes `AccsOk`. -/
theorem biz_reviews_ok : ∀ {rows : List Row} {accs : List BizAcc},
    biz_reviews rows = Except.ok accs → AccsOk rows accs := by
  intro rows
  induction rows using List.reverseRecOn with
  | nil =>
    intro accs h
    have haccs : accs = [] := by
      have : (Except.ok [] : Except Unit (List BizAcc)) = Except.ok accs := h
      rw [Except.ok.injEq] at this
      exact this.symm
    subst haccs
    exact ⟨by simp, by simp [namedRows], by simp⟩
  | append_singleton rows r ih =>
    intro accs h
    unfold biz_reviews at h
    rw [foldlM_append_except, except_bind_ok] at h
    obtain ⟨acc₀, hacc₀, hstep⟩ := h
    rw [foldlM_singleton] at hstep
    obtain ⟨hent, hcomp, hnd⟩ := ih hacc₀
    by_cases hname : rowName r = ""
    · rw [bizStep, if_pos hname, Except.ok.injEq] at hstep
      subst hstep
      refine ⟨?_, ?_, hnd⟩
      · intro b hb
        refine accEntryOk_append_of_ne ?_ (hent b hb)
        rw [hname]
        exact fun hc => (hent b hb).1 hc.symm
      · intro m hm hmr
        have hne : (rowName r == m) = false := by
          rw [beq_eq_false_iff_ne, hname]
          exact fun hc => hm hc.symm
        rw [namedRows_append, hne] at hmr
        simp only [Bool.false_eq_true, if_false, List.append_nil] at hmr
        exact hcomp m hm hmr
    · rw [bizStep, if_neg hname, except_bind_ok] at hstep
      obtain ⟨loc, hloc, hstep⟩ := hstep
      rw [Except.ok.injEq] at hstep
      subst hstep
      refine ⟨?_, ?_, nodup_name_updBiz _ _ _ acc₀ hnd⟩
      · intro b hb
        rcases mem_updBiz _ _ _ acc₀ hnd b hb with ⟨hbmem, hbne⟩ | ⟨hbn, hcase⟩
        · exact accEntryOk_append_of_ne (fun hc => hbne hc.symm) (hent b hbmem)
        · have heq : (rowName r == b.name) = true := by
            rw [hbn]
            exact beq_self_eq_true _
          rcases hcase with ⟨b₀, hb₀, hb₀n, hbeq⟩ | ⟨hnone, hbeq⟩
          · obtain ⟨_, hrev, hpos, hts, _, hlast, _⟩ := hent b₀ hb₀
            subst hbeq
            have heq' : (rowName r == b₀.name) = true := by
              rw [hb₀n]
              exact beq_self_eq_true _
            refine ⟨fun hc => hname (by rw [← hbn, hc]), ?_, by simp, ?_,
              r, ?_, ?_⟩
            · show b₀.reviews + 1 = (namedRows (rows ++ [r]) b₀.name).length
              rw [namedRows_append, heq']
              simp [hrev]
            · show b₀.total_stars + ((getKey r "stars_x").bind parseFloat?).getD 0
                = starSum (rows ++ [r]) b₀.name
              rw [starSum_append, heq']
              simp [hts]
            · show (namedRows (rows ++ [r]) b₀.name).getLast? = some r
              rw [namedRows_append, heq']
              simp
            · exact hloc
          · have hempty : namedRows rows (rowName r) = [] := by
              by_contra hne
              obtain ⟨b₀, hb₀, hb₀n⟩ := hcomp (rowName r) hname hne
              exact hnone b₀ hb₀ hb₀n
            subst hbeq
            refine ⟨by simpa using hname, ?_, by simp, ?_, r, ?_, hloc⟩
            · show 1 = (namedRows (rows ++ [r]) (rowName r)).length
              rw [namedRows_append, beq_self_eq_true, hempty]
              simp
            · show ((getKey r "stars_x").bind parseFloat?).getD 0
                = starSum (rows ++ [r]) (rowName r)
              rw [starSum_append, beq_self_eq_true]
              unfold starSum
              rw [hempty]
              simp
            · show (namedRows (rows ++ [r]) (rowName r)).getLast? = some r
              rw [namedRows_append, beq_self_eq_true, hempty]
              simp
      · intro m hm hmr
        rw [namedRows_append] at hmr
        by_cases hcm : (rowName r == m) = true
        · rw [beq_iff_eq] at hcm
          have : m ∈ (updBiz ((getKey r "stars_x").bind parseFloat?) loc
              (rowName r) acc₀).map BizAcc.name :=
            (mem_name_updBiz _ _ _ m acc₀).mpr (Or.inr hcm.symm)
          obtain ⟨b, hb, hbn⟩ := List.mem_map.mp this
          exact ⟨b, hb, hbn⟩
        · rw [Bool.not_eq_true] at hcm
          rw [hcm] at hmr
          simp only [Bool.false_eq_true, if_false, List.append_nil] at hmr
          obtain ⟨b₀, hb₀, hb₀n⟩ := hcomp m hm hmr
          have : m ∈ (updBiz ((getKey r "stars_x").bind parseFloat?) loc
              (rowName r) acc₀).map BizAcc.name :=
            (mem_name_updBiz _ _ _ m acc₀).mpr
              (Or.inl (hb₀n ▸ List.mem_map_of_mem BizAcc.name hb₀))
          obtain ⟨b, hb, hbn⟩ := List.mem_map.mp this
          exact ⟨b, hb, hbn⟩

theorem top_businesses_ok {rows : List Row} {tbs : List TopBusiness}
    (h : top_businesses rows = Except.ok tbs) :
    ∃ accs, biz_reviews rows = Except.ok accs ∧ AccsOk rows accs ∧
      tbs = ((accs.insertionSort bizGe).take 10).map finalizeBiz := by
  unfold top_businesses at h
  rw [except_bind_ok] at h
  obtain ⟨accs, haccs, h⟩ := h
  rw [Except.ok.injEq] at h
  exact ⟨accs, haccs, biz_reviews_ok haccs, h.symm⟩

/-- Every finalized top business comes from an accumulator satisfying the fold
invariant. -/
theorem topBusinesses_mem {rows : List Row} {s : FlavorSummary}
    (h : process_flavor rows = Except.ok s) :
    ∀ tb ∈ s.topBusinesses, ∃ b : BizAcc, accEntryOk rows b ∧ tb = finalizeBiz b := by
  obtain ⟨_, _, _, tbs, _, _, _, htbs, _, _, _, _, _, _, htb⟩ := process_flavor_ok h
  obtain ⟨accs, _, ⟨hent, _, _⟩, heq⟩ := top_businesses_ok htbs
  intro tb hmem
  rw [htb, heq] at hmem
  obtain ⟨b, hb, hbe⟩ := List.mem_map.mp hmem
  have hbmem : b ∈ accs :=
    (List.perm_insertionSort bizGe accs).mem_iff.mp (List.mem_of_mem_take hb)
  exact ⟨b, hent b hbmem, hbe.symm⟩

/-- **C4**: in the top-businesses reducer, every row with a nonempty stripped
name increments its business's review count; the rating sum gains the parsed
`stars_x` or 0 on coercion failure; the stored location is the `city, state`
string of the last row bearing the name (last-seen wins); and the final list is
sorted by review count descending, truncated to 10, with
`rating = round(total/reviews, 2)` (0 if the count is 0). -/
theorem C4_top_businesses (rows : List Row) (s : FlavorSummary)
    (h : process_flavor rows = Except.ok s) :
    s.topBusinesses.length ≤ 10 ∧
    s.topBusinesses.Pairwise (fun a b => b.reviews ≤ a.reviews) ∧
    ∀ tb ∈ s.topBusinesses,
      tb.name ≠ "" ∧
      tb.reviews = (namedRows rows tb.name).length ∧
      tb.rating = (if tb.reviews = 0 then 0
        else round2 (starSum rows tb.name / (tb.reviews : Rat))) ∧
      ∃ r, (namedRows rows tb.name).getLast? = some r ∧
        rowLoc r = Except.ok tb.location := by
  obtain ⟨_, _, _, tbs, _, _, _, htbs, _, _, _, _, _, _, htb⟩ := process_flavor_ok h
  obtain ⟨accs, _, _, heq⟩ := top_businesses_ok htbs
  refine ⟨?_, ?_, ?_⟩
  · rw [htb, heq]
    rw [List.length_map]
    exact le_trans (List.length_take_le 10 _) (le_refl 10)
  · rw [htb, heq]
    rw [List.pairwise_map]
    exact ((List.sorted_insertionSort bizGe accs).sublist
      (List.take_sublist _ _))
  · intro tb hmem
    obtain ⟨b, ⟨hbn, hrev, hpos, hts, last, hlast, hloc⟩, hbe⟩ :=
      topBusinesses_mem h tb hmem
    subst hbe
    refine ⟨hbn, ?_, ?_, last, ?_, ?_⟩
    · show b.reviews = (namedRows rows b.name).length
      exact hrev
    · show (if b.reviews = 0 then (0:Rat)
          else round2 (b.total_stars / (b.reviews : Rat))) =
        (if b.reviews = 0 then 0
          else round2 (starSum rows b.name / (b.reviews : Rat)))
      rw [hts]
    · exact hlast
    · exact hloc

/-- Witness for C4 at the spec §8 example: business "A" collects both rows
(one coercion failure contributing 0). -/
theorem C4_witness :
    exSummary.topBusinesses.length ≤ 10 ∧
    (2 : Nat) = (namedRows exRows "A").length := by
  have h := C4_top_businesses exRows exSummary (by with_unfolding_all rfl)
  refine ⟨h.1, ?_⟩
  have hm := (h.2.2 { name := "A", location := ", ", reviews := 2, rating := 9/4 }
    (by with_unfolding_all decide)).2.1
  exact hm

/-- **C10**: every finalized `topBusinesses` entry has review count ≥ 1 (an
accumulator only exists for a row with nonempty stripped name, created with
count 1), so the average-rating division is well-defined and the 0-rating
fallback for an empty accumulator is unreachable: the rating always equals the
rounded average. -/
theorem C10_reviews_pos (rows : List Row) (s : FlavorSummary)
    (h : process_flavor rows = Except.ok s) :
    ∀ tb ∈ s.topBusinesses, 1 ≤ tb.reviews ∧
      tb.rating = round2 (starSum rows tb.name / (tb.reviews : Rat)) := by
  intro tb hmem
  obtain ⟨b, ⟨hbn, hrev, hpos, hts, last, hlast, hloc⟩, hbe⟩ :=
    topBusinesses_mem h tb hmem
  subst hbe
  refine ⟨hpos, ?_⟩
  show (if b.reviews = 0 then (0:Rat)
      else round2 (b.total_stars / (b.reviews : Rat))) =
    round2 (starSum rows b.name / (b.reviews : Rat))
  rw [if_neg (Nat.pos_iff_ne_zero.mp hpos), hts]

/-- Witness for C10 at the spec §8 example. -/
theorem C10_witness :
    (1 : Nat) ≤ 2 ∧
    ((9 : Rat)/4) = round2 (starSum exRows "A" / (2 : Rat)) := by
  have h := C10_reviews_pos exRows exSummary (by with_unfolding_all rfl)
    { name := "A", location := ", ", reviews := 2, rating := 9/4 }
    (by with_unfolding_all decide)
  exact h

theorem topRated_mem {rows : List Row} {out : Businesses2025}
    (h : process_2025_businesses rows = Except.ok out) :
    ∀ e ∈ out.topRated, ∃ r ∈ rows, ratedOfRow r = Except.ok (some e) := by
  obtain ⟨_, _, rated, _, _, hrated, _, _, _, htr⟩ := process_2025_businesses_ok h
  intro e he
  rw [htr] at he
  have he' : e ∈ rated.reduceOption :=
    (List.perm_insertionSort ratedGe _).mem_iff.mp (List.mem_of_mem_take he)
  have hsome : some e ∈ rated := List.reduceOption_mem_iff.mp he'
  exact mapM_ok_mem_rev ratedOfRow rows rated hrated (some e) hsome

theorem ratedOfRow_some {r : Row} {e : RatedBusiness}
    (h : ratedOfRow r = Except.ok (some e)) :
    (getKey r "rating").bind parseFloat? = some e.rating ∧
    (getKey r "review_count").bind parseInt? = some e.reviewCount ∧
    10 ≤ e.reviewCount := by
  unfold ratedOfRow at h
  split at h
  · rename_i q rc hr hrc
    split at h
    · rename_i h10
      rw [except_bind_ok] at h
      obtain ⟨nm, _, h⟩ := h
      rw [except_bind_ok] at h
      obtain ⟨c, _, h⟩ := h
      rw [except_bind_ok] at h
      obtain ⟨st, _, h⟩ := h
      rw [Except.ok.injEq, Option.some.injEq] at h
      subst h
      exact ⟨hr, hrc, h10⟩
    · exact absurd h (by simp)
  · exact absurd h (by simp)

/-- A 2025 business row: rating 5, the given review count. -/
def mk25 (nm rc : String) : Row :=
  [("name", nm), ("city", "LA"), ("state", "CA"), ("rating", "5"),
   ("review_count", rc)]

/-- Eleven eligible rows, all rated 5, review counts 20 down to 10. -/
def crowdRows : List Row :=
  [mk25 "B0" "20", mk25 "B1" "19", mk25 "B2" "18", mk25 "B3" "17",
   mk25 "B4" "16", mk25 "B5" "15", mk25 "B6" "14", mk25 "B7" "13",
   mk25 "B8" "12", mk25 "B9" "11", mk25 "K" "10"]

/-- The eligible entry of the review_count-10 row of `crowdRows`. -/
def crowdEntry10 : RatedBusiness :=
  { name := "K", city := "LA, CA", rating := 5, reviewCount := 10,
    categories := "" }

/-- **C6 counterexample**: a business with `review_count = 10` and rating 5.0
need NOT appear in the top-rated list.  In `crowdRows` the row `K` is eligible
(rating parses to 5.0, review count parses to 10 ≥ 10), yet eleven eligible
rows compete and the tie on rating is broken by review count descending, so
`K` is ranked 11th and cut by the top-10 truncation: no entry with review
count 10 appears. -/
theorem C6_counterexample :
    (process_2025_businesses crowdRows).map
      (fun o => o.topRated.all (fun e => e.reviewCount != 10)) =
      Except.ok true ∧
    ratedOfRow (mk25 "K" "10") = Except.ok (some crowdEntry10) ∧
    mk25 "K" "10" ∈ crowdRows ∧
    crowdEntry10.reviewCount = 10 ∧ crowdEntry10.rating = 5 := by
  refine ⟨?_, ?_, ?_, ?_, ?_⟩
  · with_unfolding_all rfl
  · with_unfolding_all rfl
  · with_unfolding_all decide
  · rfl
  · rfl

/-- **C6 (amended)**: every entry of the top-rated list arises from a row
whose rating parses as a float and whose review count parses as an integer
that is at least 10 (so a business with review_count = 9 never appears); the
list is sorted by rating descending with review count descending as tie-break
and has at most 10 entries; and an eligible row's entry is guaranteed to
appear only when at most 10 rows are eligible (otherwise it can be crowded
out — see the counterexample). -/
theorem C6_top_rated (rows : List Row) (out : Businesses2025)
    (h : process_2025_businesses rows = Except.ok out) :
    (∀ e ∈ out.topRated, 10 ≤ e.reviewCount ∧
      ∃ r ∈ rows, (getKey r "rating").bind parseFloat? = some e.rating ∧
        (getKey r "review_count").bind parseInt? = some e.reviewCount) ∧
    out.topRated.length ≤ 10 ∧
    out.topRated.Pairwise ratedGe ∧
    (∀ r ∈ rows, ∀ e, ratedOfRow r = Except.ok (some e) →
      ∀ rated, rows.mapM ratedOfRow = Except.ok rated →
        rated.reduceOption.length ≤ 10 → e ∈ out.topRated) := by
  obtain ⟨_, _, rated, _, _, hrated, _, _, _, htr⟩ := process_2025_businesses_ok h
  refine ⟨?_, ?_, ?_, ?_⟩
  · intro e he
    obtain ⟨r, hr, hfr⟩ := topRated_mem h e he
    obtain ⟨hq, hrc, h10⟩ := ratedOfRow_some hfr
    exact ⟨h10, r, hr, hq, hrc⟩
  · rw [htr]
    exact le_trans (List.length_take_le 10 _) (le_refl 10)
  · rw [htr]
    exact ((List.sorted_insertionSort ratedGe rated.reduceOption).sublist
      (List.take_sublist _ _))
  · intro r hr e hre rated' hrated' hlen
    rw [hrated'] at hrated
    rw [Except.ok.injEq] at hrated
    subst hrated
    obtain ⟨b, hb, hfb⟩ := mapM_ok_mem ratedOfRow rows rated' hrated' r hr
    rw [hre, Except.ok.injEq] at hfb
    subst hfb
    have hmem : e ∈ rated'.reduceOption := List.reduceOption_mem_iff.mpr hb
    rw [htr, List.take_of_length_le (by rwa [List.length_insertionSort])]
    exact (List.perm_insertionSort ratedGe _).mem_iff.mpr hmem

/-- A single eligible 2025 business row (witness input for C6). -/
def r25 : Row :=
  [("name", "K"), ("city", "LA"), ("state", "CA"), ("rating", "4.5"),
   ("review_count", "12"), ("categories", "Ice Cream")]

/-- The entry `r25` yields. -/
def e25 : RatedBusiness :=
  { name := "K", city := "LA, CA", rating := 9/2, reviewCount := 12,
    categories := "Ice Cream" }

/-- The summary `process_2025_businesses` computes for `[r25]`. -/
def out25 : Businesses2025 :=
  { total := 1, topCities := [("LA, CA", 1)], topStates := [("CA", 1)],
    topRated := [e25] }

/-- Witness for the amended C6: with one eligible row (review count 12 ≥ 10)
the entry appears, and the list stays within 10 entries. -/
theorem C6_witness : e25 ∈ out25.topRated ∧ out25.topRated.length ≤ 10 := by
  have h := C6_top_rated [r25] out25 (by with_unfolding_all rfl)
  refine ⟨?_, h.2.1⟩
  exact h.2.2.2 r25 (List.mem_cons_self _ _) e25 (by with_unfolding_all rfl)
    [some e25] (by with_unfolding_all rfl) (by with_unfolding_all decide)

theorem round_rat_mono {x y : Rat} (h : x ≤ y) : round x ≤ round y := by
  rw [round_eq, round_eq]
  exact Int.floor_le_floor (by linarith)

theorem round2_bounds {q : Rat} (h0 : 0 ≤ q) (h5 : q ≤ 5) :
    0 ≤ round2 q ∧ round2 q ≤ 5 := by
  have l1 : round (0 : Rat) ≤ round (q * 100) := round_rat_mono (by nlinarith)
  have l2 : round (q * 100) ≤ round ((500 : Int) : Rat) :=
    round_rat_mono (by push_cast; nlinarith)
  rw [round_zero] at l1
  rw [round_intCast] at l2
  unfold round2
  constructor
  · positivity
  · rw [div_le_iff₀ (by norm_num : (0:Rat) < 100)]
    have l2' : ((round (q * 100) : Int) : Rat) ≤ 500 := by exact_mod_cast l2
    linarith

theorem starSum_bounds {rows : List Row} (n : String)
    (h : ∀ r ∈ rows, ∀ q : Rat,
      (getKey r "stars_x").bind parseFloat? = some q → 0 ≤ q ∧ q ≤ 5) :
    0 ≤ starSum rows n ∧ starSum rows n ≤ 5 * (namedRows rows n).length := by
  constructor
  · apply List.sum_nonneg
    intro x hx
    obtain ⟨r, hr, hxe⟩ := List.mem_map.mp hx
    subst hxe
    cases hp : (getKey r "stars_x").bind parseFloat? with
    | none => simp
    | some q =>
      simpa using (h r (List.mem_of_mem_filter hr) q hp).1
  · have hle := List.sum_le_card_nsmul
      ((namedRows rows n).map
        (fun r => ((getKey r "stars_x").bind parseFloat?).getD 0)) 5 ?_
    · rw [List.length_map] at hle
      unfold starSum
      calc _ ≤ (namedRows rows n).length • (5:Rat) := hle
        _ = 5 * (namedRows rows n).length := by
          rw [nsmul_eq_mul]; ring
    · intro x hx
      obtain ⟨r, hr, hxe⟩ := List.mem_map.mp hx
      subst hxe
      cases hp : (getKey r "stars_x").bind parseFloat? with
      | none => simp
      | some q =>
        simpa using (h r (List.mem_of_mem_filter hr) q hp).2

/-- A dataset whose single review carries a (valid, in-range) rating of 0.0:
its business ends with review count 1 and rating 0. -/
def zeroStarRows : List Row :=
  [[("year", "2020"), ("city", "X"), ("state", "Y"), ("stars_x", "0.0"),
    ("name", "A")]]

/-- **C7 counterexample**: "rating is 0 exactly when review count is 0" fails:
with a single valid in-range rating of 0.0, the finalized business has
review count 1 and rating 0, so rating 0 does not imply review count 0. -/
theorem C7_counterexample :
    (process_flavor zeroStarRows).map
      (fun s => s.topBusinesses.map (fun tb => (tb.reviews, tb.rating))) =
      Except.ok [(1, 0)] ∧
    parseFloat? "0.0" = some 0 := by
  constructor
  · with_unfolding_all rfl
  · with_unfolding_all rfl

/-- **C7 (amended)**: whenever every rating that parses lies in [0, 5], every
business rating emitted by the top-businesses reducer (4.5) and by the
top-rated selection (4.8) lies in [0, 5]; in 4.5 a zero review count yields
rating 0 (though such an entry never occurs, see C10) and in 4.8 every entry
has positive review count.  The converse — rating 0 only with review count
0 — is false (see the counterexample). -/
theorem C7_rating_bounds (rows rows2 : List Row) (s : FlavorSummary)
    (out : Businesses2025) :
    (process_flavor rows = Except.ok s →
      (∀ r ∈ rows, ∀ q : Rat,
        (getKey r "stars_x").bind parseFloat? = some q → 0 ≤ q ∧ q ≤ 5) →
      ∀ tb ∈ s.topBusinesses, (0 ≤ tb.rating ∧ tb.rating ≤ 5) ∧
        (tb.reviews = 0 → tb.rating = 0)) ∧
    (process_2025_businesses rows2 = Except.ok out →
      (∀ r ∈ rows2, ∀ q : Rat,
        (getKey r "rating").bind parseFloat? = some q → 0 ≤ q ∧ q ≤ 5) →
      ∀ e ∈ out.topRated, (0 ≤ e.rating ∧ e.rating ≤ 5) ∧ 0 < e.reviewCount) := by
  constructor
  · intro h hv tb hmem
    obtain ⟨b, ⟨hbn, hrev, hpos, hts, last, hlast, hloc⟩, hbe⟩ :=
      topBusinesses_mem h tb hmem
    subst hbe
    have hcnt : (0:Rat) < (b.reviews : Rat) := by exact_mod_cast hpos
    obtain ⟨hs0, hs5⟩ := starSum_bounds b.name hv
    constructor
    · show 0 ≤ (if b.reviews = 0 then (0:Rat)
          else round2 (b.total_stars / (b.reviews : Rat))) ∧
        (if b.reviews = 0 then (0:Rat)
          else round2 (b.total_stars / (b.reviews : Rat))) ≤ 5
      rw [if_neg (Nat.pos_iff_ne_zero.mp hpos)]
      have h0 : 0 ≤ b.total_stars / (b.reviews : Rat) := by
        apply div_nonneg _ (le_of_lt hcnt)
        rw [hts]; exact hs0
      have h5 : b.total_stars / (b.reviews : Rat) ≤ 5 := by
        rw [div_le_iff₀ hcnt, hts, hrev]
        linarith [hs5]
      exact round2_bounds h0 h5
    · intro h0
      exact absurd h0 (Nat.pos_iff_ne_zero.mp hpos)
  · intro h hv e hmem
    obtain ⟨r, hr, hfr⟩ := topRated_mem h e hmem
    obtain ⟨hq, _, h10⟩ := ratedOfRow_some hfr
    refine ⟨hv r hr e.rating hq, by omega⟩

/-- Witness for the amended C7: rating 2.25 of the example business and rating
4.5 of the 2025 entry both lie in [0, 5]. -/
theorem C7_witness :
    (0 ≤ ((9:Rat)/4) ∧ ((9:Rat)/4) ≤ 5) ∧
    (0 ≤ ((9:Rat)/2) ∧ ((9:Rat)/2) ≤ 5) := by
  have hall1 : ∀ r ∈ exRows, (((getKey r "stars_x").bind parseFloat?).all
      (fun x => decide (0 ≤ x ∧ x ≤ 5))) = true := by
    with_unfolding_all decide
  have hv1 : ∀ r ∈ exRows, ∀ q : Rat,
      (getKey r "stars_x").bind parseFloat? = some q → 0 ≤ q ∧ q ≤ 5 := by
    intro r hr q hq
    have hall := hall1 r hr
    rw [hq] at hall
    exact of_decide_eq_true hall
  have hall2 : ∀ r ∈ [r25], (((getKey r "rating").bind parseFloat?).all
      (fun x => decide (0 ≤ x ∧ x ≤ 5))) = true := by
    with_unfolding_all decide
  have hv2 : ∀ r ∈ [r25], ∀ q : Rat,
      (getKey r "rating").bind parseFloat? = some q → 0 ≤ q ∧ q ≤ 5 := by
    intro r hr q hq
    have hall := hall2 r hr
    rw [hq] at hall
    exact of_decide_eq_true hall
  have h := C7_rating_bounds exRows [r25] exSummary out25
  have h1 := (h.1 (by with_unfolding_all rfl) hv1
    { name := "A", location := ", ", reviews := 2, rating := 9/4 }
    (by with_unfolding_all decide)).1
  have h2 := (h.2 (by with_unfolding_all rfl) hv2 e25
    (by with_unfolding_all decide)).1
  exact ⟨h1, h2⟩
